import Mathlib

/-!
Verification of the PersonalExpenseTracker core (`expense_tracker.py`) against its
natural-language specification.

The embedding models texts as `List Char`, Python `decimal.Decimal` values as a
sign/coefficient/exponent triple (plus the special values NaN and infinity, which the
Python type contains), Python `datetime.date` as a year/month/day record, and the
engine's two data files at the row level (the `csv`/`json` layers are treated as a
faithful transport of field texts, which they are for the texts this program writes).
Decimal arithmetic follows Python's default context: exact results are rounded to 28
significant digits with round-half-even, and ordering comparisons involving NaN signal
`InvalidOperation`.  Fallible Python code is modelled with `Except`; a raised
`ValueError` or `decimal.InvalidOperation` is an `Except.error`.
-/

/-- Texts are modelled as lists of characters. -/
abbrev Str := List Char

/-- The whitespace characters stripped by Python's `str.strip()` (ASCII subset). -/
def isSpaceChar (c : Char) : Bool :=
  c = ' ' || c = '\t' || c = '\n' || c = '\r' || c = '\x0b' || c = '\x0c'

/-- Python `str.strip()`: drop leading and trailing whitespace. -/
def strip (s : Str) : Str :=
  ((s.dropWhile isSpaceChar).reverse.dropWhile isSpaceChar).reverse

/-- Python `str.lower()` (ASCII behaviour). -/
def lowerStr (s : Str) : Str := s.map Char.toLower

/-- Decimal digit characters. -/
def isDigitChar (c : Char) : Bool := 48 ≤ c.toNat && c.toNat ≤ 57

/-- Numeric value of a digit character. -/
def charVal (c : Char) : ℕ := c.toNat - 48

/-- Digit character of a value below ten. -/
def digitChar (d : ℕ) : Char := Char.ofNat (48 + d)

/-- Numeric value of a digit string, most significant digit first. -/
def digitsToNat (l : Str) : ℕ := Nat.ofDigits 10 (l.reverse.map charVal)

/-- Decimal digits of a number, most significant first; fuel-based so that the kernel
can evaluate it. -/
def natDigitsAux : ℕ → ℕ → Str
  | 0, _ => []
  | fuel + 1, n => if n = 0 then [] else natDigitsAux fuel (n / 10) ++ [digitChar (n % 10)]

/-- Decimal representation of a natural number, as Python prints it. -/
def natDigits (n : ℕ) : Str := if n = 0 then ['0'] else natDigitsAux n n

/-- Number of decimal digits of a coefficient (0 for 0). -/
def ndigits (n : ℕ) : ℕ := (natDigitsAux n n).length

/-- Two-digit zero-padded rendering, as `strftime` does for `%m` and `%d`. -/
def pad2 (n : ℕ) : Str := if n < 10 then ['0', digitChar n] else natDigits n

/-- A Python `decimal.Decimal` value: a signed coefficient-exponent pair, an infinity,
or (quiet) NaN.  The numeric value of `num neg c e` is `(-1)^neg * c * 10^e`; the
representation (not just the value) is significant for `format(d, "f")`. -/
inductive PyDec where
  | num (neg : Bool) (c : ℕ) (e : ℤ)
  | inf (neg : Bool)
  | nan
deriving DecidableEq

/-- A raised Python exception relevant to this program: `ValueError` with its message,
or `decimal.InvalidOperation` / `decimal.Overflow` (both `ArithmeticError`s, *not*
`ValueError`s; both trapped by the default decimal context). -/
inductive PyErr where
  | valueError (msg : Str)
  | invalidOperation
  | overflow
deriving DecidableEq

/-- Rational value of a finite decimal (0 for the special values, which are guarded by
finiteness hypotheses wherever this is used). -/
def qval : PyDec → ℚ
  | .num neg c e => (if neg then (-1 : ℚ) else 1) * c * (10 : ℚ) ^ e
  | _ => 0

/-- A decimal is finite when it is a coefficient-exponent pair. -/
def PyDec.isFinite : PyDec → Bool
  | .num _ _ _ => true
  | _ => false

/-- The default decimal context's precision: 28 significant digits. -/
def prec : ℕ := 28

/-- The default decimal context's maximum adjusted exponent (`Emax = 999999`). -/
def Emax : ℤ := 999999

/-- The default decimal context's minimum normal adjusted exponent (`Emin = -999999`). -/
def Emin : ℤ := -999999

/-- The smallest representable exponent, `Etiny = Emin - prec + 1 = -1000026`: the
exponent at which subnormal results are rounded. -/
def Etiny : ℤ := -1000026

/-- Round a coefficient `c` down by `k` decimal digits with round-half-even: the
coefficient of `round(c * 10^E to exponent E + k)`.  For `k = 0` this is `c`. -/
def roundToExp (c k : ℕ) : ℕ :=
  let q := c / 10 ^ k
  let r := c % 10 ^ k
  if 10 ^ k < 2 * r || (2 * r = 10 ^ k && q % 2 = 1) then q + 1 else q

/-- Context rounding of a nonzero exact result `c * 10^E` under the default decimal
context: round half-even so the coefficient has at most 28 digits *and* the exponent
is at least `Etiny` (subnormal results lose digits, possibly flushing to
`0E-1000026`); then signal the trapped `decimal.Overflow` when the adjusted exponent
of the rounded result exceeds `Emax`. -/
def ctxRound (c : ℕ) (E : ℤ) : Except PyErr (ℕ × ℤ) :=
  let d := ndigits c
  let Enorm : ℤ := if d ≤ prec then E else E + ((d - prec : ℕ) : ℤ)
  let Etgt : ℤ := max Enorm Etiny
  let q := roundToExp c (Etgt - E).toNat
  let p : ℕ × ℤ := if q = 10 ^ prec then (10 ^ (prec - 1), Etgt + 1) else (q, Etgt)
  if Emax < p.2 + (ndigits p.1 : ℤ) - 1 then .error .overflow else .ok p

/-- Signed integer view of a finite decimal's coefficient. -/
def intOf (neg : Bool) (c : ℕ) : ℤ := if neg then -(c : ℤ) else (c : ℤ)

/-- Python decimal addition under the default context (prec 28, Emin/Emax ±999999,
Overflow trapped, Underflow/Subnormal/Clamped untrapped): exact result at the
minimum exponent, then context-rounded — at most 28 significant digits, exponent
clamped below at `Etiny` (silent subnormal underflow, e.g.
`0 + 1E-1000050 = 0E-1000026`) — raising `decimal.Overflow` when the rounded
result's adjusted exponent exceeds `Emax`; a zero result keeps the minimum exponent
clamped into `[Etiny, Emax]`; `Inf + (-Inf)` signals `InvalidOperation`; quiet NaN
propagates. -/
def decAddE : PyDec → PyDec → Except PyErr PyDec
  | .nan, _ => .ok .nan
  | _, .nan => .ok .nan
  | .inf s, .inf t => if s = t then .ok (.inf s) else .error .invalidOperation
  | .inf s, .num _ _ _ => .ok (.inf s)
  | .num _ _ _, .inf t => .ok (.inf t)
  | .num n1 c1 e1, .num n2 c2 e2 =>
    let E := min e1 e2
    let m : ℤ := intOf n1 c1 * 10 ^ (e1 - E).toNat + intOf n2 c2 * 10 ^ (e2 - E).toNat
    if m = 0 then .ok (.num (n1 && n2) 0 (max (min E Emax) Etiny))
    else
      match ctxRound m.natAbs E with
      | .error err => .error err
      | .ok p => .ok (.num (decide (m < 0)) p.1 p.2)

/-- Python unary minus on a decimal sign (used by `__sub__`). -/
def decNeg : PyDec → PyDec
  | .num n c e => .num (!n) c e
  | .inf s => .inf (!s)
  | .nan => .nan

/-- Python decimal subtraction: addition of the negated second operand. -/
def decSubE (a b : PyDec) : Except PyErr PyDec := decAddE a (decNeg b)

/-- Python `d <= 0` on a decimal: ordering comparisons involving NaN raise
`decimal.InvalidOperation`. -/
def decLeZeroE : PyDec → Except PyErr Bool
  | .nan => .error .invalidOperation
  | .inf s => .ok s
  | .num n c _ => .ok (c = 0 || n)

/-- Python `d >= 0` on a decimal: ordering comparisons involving NaN raise
`decimal.InvalidOperation`. -/
def decGeZeroE : PyDec → Except PyErr Bool
  | .nan => .error .invalidOperation
  | .inf s => .ok !s
  | .num n c _ => .ok (c = 0 || !n)

/-- Python `format(d, "f")`: fixed-point text, no exponent notation, no thousands
separator; `NaN` and `Infinity` print their names. -/
def decFormat : PyDec → Str
  | .nan => "NaN".data
  | .inf false => "Infinity".data
  | .inf true => "-Infinity".data
  | .num neg c e =>
    let body :=
      if 0 ≤ e then
        if c = 0 then ['0'] else natDigits c ++ List.replicate e.toNat '0'
      else
        let k := (-e).toNat
        let ds := natDigits c
        if ds.length ≤ k then ['0', '.'] ++ List.replicate (k - ds.length) '0' ++ ds
        else ds.take (ds.length - k) ++ ['.'] ++ ds.drop (ds.length - k)
    (if neg then ['-'] else []) ++ body

/-- Parse an optionally signed digit run (an exponent part of a decimal literal). -/
def parseSignedNat (cs : Str) : Option ℤ :=
  match cs with
  | '+' :: rest => if rest ≠ [] && rest.all isDigitChar then some (digitsToNat rest) else none
  | '-' :: rest => if rest ≠ [] && rest.all isDigitChar then some (-(digitsToNat rest : ℤ)) else none
  | rest => if rest ≠ [] && rest.all isDigitChar then some (digitsToNat rest) else none

/-- Parse the mantissa of a decimal literal: digits, with at most one point and at
least one digit overall.  Returns coefficient and exponent. -/
def parseMantissa (cs : Str) : Option (ℕ × ℤ) :=
  let ip := cs.takeWhile isDigitChar
  let rest := cs.dropWhile isDigitChar
  match rest with
  | [] => if ip = [] then none else some (digitsToNat ip, 0)
  | '.' :: fp =>
    if fp.all isDigitChar && (ip ≠ [] || fp ≠ []) then
      some (digitsToNat (ip ++ fp), -(fp.length : ℤ))
    else none
  | _ => none

/-- Parse a decimal numeric literal with optional exponent part. -/
def parseNumeric (cs : Str) : Option (ℕ × ℤ) :=
  match cs.span (fun c => decide (c ≠ 'e') && decide (c ≠ 'E')) with
  | (mant, []) => parseMantissa mant
  | (mant, _ :: expPart) =>
    match parseMantissa mant, parseSignedNat expPart with
    | some (c, e0), some ev => some (c, e0 + ev)
    | _, _ => none

/-- Parse the part of a decimal literal after the optional sign: a numeric literal, an
infinity, or a (possibly signalling, possibly diagnostic-carrying) NaN. -/
def parseUnsigned (neg : Bool) (cs : Str) : Option PyDec :=
  let low := lowerStr cs
  if low = "inf".data || low = "infinity".data then some (.inf neg)
  else if (low.take 3 = "nan".data && (low.drop 3).all isDigitChar) ||
          (low.take 4 = "snan".data && (low.drop 4).all isDigitChar) then some .nan
  else (parseNumeric cs).map fun p => .num neg p.1 p.2

/-- The Python `Decimal` string constructor: strips surrounding whitespace, removes
underscores, then parses sign plus body.  `none` models a raised
`decimal.InvalidOperation` from the constructor. -/
def decimalParse (s : Str) : Option PyDec :=
  match (strip s).filter (fun c => decide (c ≠ '_')) with
  | [] => none
  | c :: rest =>
    if c = '+' then parseUnsigned false rest
    else if c = '-' then parseUnsigned true rest
    else parseUnsigned false (c :: rest)

deriving instance DecidableEq for Except

/-- A Python `datetime.date`: year, month, day. -/
structure PyDate where
  year : ℕ
  month : ℕ
  day : ℕ
deriving DecidableEq

/-- Gregorian leap-year rule used by `datetime`. -/
def isLeap (y : ℕ) : Bool := (y % 4 = 0 && y % 100 ≠ 0) || y % 400 = 0

/-- Days in a month, as `datetime.date` validates. -/
def daysInMonth (y m : ℕ) : ℕ :=
  if m = 2 then (if isLeap y then 29 else 28)
  else if m = 4 || m = 6 || m = 9 || m = 11 then 30
  else 31

/-- A triple acceptable to the `datetime.date` constructor. -/
def validDate (d : PyDate) : Bool :=
  1 ≤ d.year && d.year ≤ 9999 && 1 ≤ d.month && d.month ≤ 12 &&
  1 ≤ d.day && d.day ≤ daysInMonth d.year d.month

/-- A year group accepted by `strptime`'s `%Y`: exactly four digits. -/
def parseY (s : Str) : Option ℕ :=
  if s.length = 4 && s.all isDigitChar then some (digitsToNat s) else none

/-- A month or day group accepted by `strptime`'s `%m`/`%d`: one or two digits with
the value range checked by the pattern and by the `date` constructor afterwards. -/
def parse2 (lo hi : ℕ) (s : Str) : Option ℕ :=
  if (s.length = 1 || s.length = 2) && s.all isDigitChar then
    let v := digitsToNat s
    if lo ≤ v && v ≤ hi then some v else none
  else none

/-- Python `datetime.strptime(s, "%Y-%m-%d").date()`: four-digit year, one-or-two
digit month and day, entire string consumed, then calendar validation by the `date`
constructor.  `none` models the raised `ValueError`. -/
def dateParse (s : Str) : Option PyDate :=
  let ys := s.takeWhile (fun c => decide (c ≠ '-'))
  match s.dropWhile (fun c => decide (c ≠ '-')) with
  | '-' :: rest =>
    let ms := rest.takeWhile (fun c => decide (c ≠ '-'))
    match rest.dropWhile (fun c => decide (c ≠ '-')) with
    | '-' :: ds =>
      match parseY ys, parse2 1 12 ms, parse2 1 31 ds with
      | some y, some m, some d =>
        if 1 ≤ y && d ≤ daysInMonth y m then some ⟨y, m, d⟩ else none
      | _, _, _ => none
    | _ => none
  | _ => none

/-- Python `d.strftime("%Y-%m-%d")` on Linux: unpadded year, zero-padded month and
day. -/
def dateFormat (d : PyDate) : Str :=
  natDigits d.year ++ '-' :: pad2 d.month ++ '-' :: pad2 d.day

/-- The static method `ExpenseTracker._month_key`: `d.strftime("%Y-%m")`. -/
def month_key (d : PyDate) : Str := natDigits d.year ++ '-' :: pad2 d.month

/-- The `Expense` dataclass of `expense_tracker.py`. -/
structure Expense where
  date : PyDate
  category : Str
  amount : PyDec
  description : Str
deriving DecidableEq

/-- A CSV row as `csv.DictReader` presents it: a field-name-to-text mapping. -/
abbrev Row := List (Str × Str)

/-- Python `row.get(k)` on the field mapping. -/
def rowGet (r : Row) (k : Str) : Option Str := (r.find? (fun p => p.1 = k)).map (·.2)

/-- Python falsiness of `row.get(k)`: missing key or empty text. -/
def rowFalsy (r : Row) (k : Str) : Bool :=
  match rowGet r k with
  | none => true
  | some v => v = []

/-- The static method `Expense.from_row`.  Mirrors the source exactly: an empty
mapping is rejected first; any failure in the date block (including a missing or
falsy date) is re-raised as `ValueError("Invalid date format")`; category and
description are only checked for Python truthiness *before* trimming; the amount is
parsed as a `Decimal` (failures caught and re-raised as `ValueError("Invalid
amount")`, a falsy amount raising `ValueError("Missing amount")` uncaught), and the
final `amt <= 0` comparison raises an uncaught `decimal.InvalidOperation` when the
amount parsed as NaN. -/
def Expense.from_row (r : Row) : Except PyErr Expense :=
  if r = [] then .error (.valueError "Input row cannot be empty".data)
  else
    match (match rowGet r "date".data with
           | none => none
           | some s => if s = [] then none else dateParse (strip s)) with
    | none => .error (.valueError "Invalid date format".data)
    | some d =>
      match rowGet r "category".data with
      | none => .error (.valueError "Missing category".data)
      | some cat =>
        if cat = [] then .error (.valueError "Missing category".data)
        else
          match rowGet r "description".data with
          | none => .error (.valueError "Missing description".data)
          | some desc =>
            if desc = [] then .error (.valueError "Missing description".data)
            else
              match rowGet r "amount".data with
              | none => .error (.valueError "Missing amount".data)
              | some amtStr =>
                if amtStr = [] then .error (.valueError "Missing amount".data)
                else
                  match decimalParse (strip amtStr) with
                  | none => .error (.valueError "Invalid amount".data)
                  | some amt =>
                    match decLeZeroE amt with
                    | .error err => .error err
                    | .ok true => .error (.valueError "Amount must be positive".data)
                    | .ok false => .ok ⟨d, strip cat, amt, strip desc⟩

/-- The method `Expense.to_row`: date via `strftime("%Y-%m-%d")`, amount via
`format(amount, "f")`, category and description as stored. -/
def Expense.to_row (e : Expense) : Row :=
  [("date".data, dateFormat e.date), ("category".data, e.category),
   ("amount".data, decFormat e.amount), ("description".data, e.description)]

/-- The persisted budget file as `_load_budgets` consumes it: absent, a file whose
whole-document parse raises, or a parsed flat mapping whose entry values are the
`str()` texts that the comprehension feeds to `Decimal`. -/
inductive BudFile where
  | absent
  | malformed
  | parsed (entries : List (Str × Str))
deriving DecidableEq

/-- The `ExpenseTracker` engine state together with the contents of the two files at
its configured paths (the disk is part of the state so that persistence effects are
visible; `expFile = none` models an absent expense file). -/
structure ExpenseTracker where
  expenses : List Expense
  budgets : List (Str × PyDec)
  expFile : Option (List Row)
  budFile : BudFile
deriving DecidableEq

/-- A freshly constructed `ExpenseTracker()` on a disk holding the given two files:
empty in-memory collections. -/
def freshOn (ef : Option (List Row)) (bf : BudFile) : ExpenseTracker :=
  ⟨[], [], ef, bf⟩

/-- Python `dict` insertion: overwrite in place if the key exists, else append. -/
def dictSet (m : List (Str × PyDec)) (k : Str) (v : PyDec) : List (Str × PyDec) :=
  match m with
  | [] => [(k, v)]
  | (k2, v2) :: rest => if k2 = k then (k, v) :: rest else (k2, v2) :: dictSet rest k v

/-- The row loop of `ExpenseTracker._load_expenses`: each row through
`Expense.from_row`; a `ValueError` skips the row; any other raised error (the NaN
comparison's `InvalidOperation`) propagates.  Returns the appended expenses and the
count. -/
def load_rows : List Row → Except PyErr (List Expense × ℕ)
  | [] => .ok ([], 0)
  | r :: rs =>
    match Expense.from_row r with
    | .ok e =>
      match load_rows rs with
      | .ok (es, n) => .ok (e :: es, n + 1)
      | .error err => .error err
    | .error (.valueError _) => load_rows rs
    | .error err => .error err

/-- The method `ExpenseTracker._load_expenses`: absent file loads nothing; otherwise
the row loop appends to the in-memory list. -/
def ExpenseTracker.load_expenses (t : ExpenseTracker) : Except PyErr (ExpenseTracker × ℕ) :=
  match t.expFile with
  | none => .ok (t, 0)
  | some rows =>
    match load_rows rows with
    | .ok (es, n) => .ok ({ t with expenses := t.expenses ++ es }, n)
    | .error err => .error err

/-- The method `ExpenseTracker._load_budgets`: absent file loads nothing and leaves
the map alone; a whole-file parse failure, or any entry value that `Decimal` rejects,
discards the entire map (the bare `except Exception` arm) and reports zero; otherwise
the whole converted mapping replaces the map. -/
def ExpenseTracker.load_budgets (t : ExpenseTracker) : ExpenseTracker × ℕ :=
  match t.budFile with
  | .absent => (t, 0)
  | .malformed => ({ t with budgets := [] }, 0)
  | .parsed kvs =>
    match kvs.mapM (fun kv => (decimalParse kv.2).map (fun d => (kv.1, d))) with
    | some bs => ({ t with budgets := bs }, bs.length)
    | none => ({ t with budgets := [] }, 0)

/-- The method `ExpenseTracker.load`: expenses then budgets, returning both counts. -/
def ExpenseTracker.load (t : ExpenseTracker) : Except PyErr (ExpenseTracker × ℕ × ℕ) :=
  match t.load_expenses with
  | .error err => .error err
  | .ok (t1, ne) =>
    let p := t1.load_budgets
    .ok (p.1, ne, p.2)

/-- The method `ExpenseTracker.save`: whole-file rewrite of both files from memory,
expenses via `Expense.to_row` in order, budgets as key to `format(v, "f")` text. -/
def ExpenseTracker.save (t : ExpenseTracker) : ExpenseTracker :=
  { t with
    expFile := some (t.expenses.map Expense.to_row)
    budFile := .parsed (t.budgets.map (fun kv => (kv.1, decFormat kv.2))) }

/-- The method `ExpenseTracker.add_expense`: no validation at all; category and
description trimmed, date and amount stored unchanged; appends and returns the
entity.  Only memory changes. -/
def ExpenseTracker.add_expense (t : ExpenseTracker) (d : PyDate) (category : Str)
    (amount : PyDec) (description : Str) : ExpenseTracker × Expense :=
  let exp : Expense := ⟨d, strip category, amount, strip description⟩
  ({ t with expenses := t.expenses ++ [exp] }, exp)

/-- The method `ExpenseTracker.list_expenses`, in state-passing style (the returned
state is the receiver exactly as the method leaves it).  Mirrors the source: `if
month_key:` and `if category:` are Python truthiness tests, so a `None` *or empty*
filter is skipped; the month filter compares the derived month key for equality and
the category filter compares lowercased texts. -/
def ExpenseTracker.list_expenses (t : ExpenseTracker) (mk : Option Str) (category : Option Str) :
    List Expense × ExpenseTracker :=
  let items := t.expenses
  let items :=
    match mk with
    | none => items
    | some k => if k = [] then items else items.filter (fun e => month_key e.date = k)
  let items :=
    match category with
    | none => items
    | some c => if c = [] then items else items.filter (fun e => lowerStr e.category = lowerStr c)
  (items, t)

/-- The method `ExpenseTracker.total_expenses`: `sum` of the amounts of
`list_expenses(month_key)` starting from `Decimal("0")`, using context decimal
addition. -/
def ExpenseTracker.total_expenses (t : ExpenseTracker) (mk : Option Str) :
    Except PyErr PyDec × ExpenseTracker :=
  let p := t.list_expenses mk none
  (p.1.foldlM (fun acc e => decAddE acc e.amount) (.num false 0 0), p.2)

/-- The method `ExpenseTracker.set_budget`: rejects `amount <= 0` with a
`ValueError`, and the comparison itself signals on NaN. -/
def ExpenseTracker.set_budget (t : ExpenseTracker) (mk : Str) (amount : PyDec) :
    Except PyErr ExpenseTracker :=
  match decLeZeroE amount with
  | .error err => .error err
  | .ok true => .error (.valueError "Budget must be positive".data)
  | .ok false => .ok { t with budgets := dictSet t.budgets mk amount }

/-- The method `ExpenseTracker.get_budget`: `dict.get`, an explicit `None` when the
key is absent. -/
def ExpenseTracker.get_budget (t : ExpenseTracker) (mk : Str) :
    Option PyDec × ExpenseTracker :=
  ((t.budgets.find? (fun kv => kv.1 = mk)).map (·.2), t)

/-- The result dictionary of `ExpenseTracker.budget_status`.  The `budget` and
`remaining` slots hold decimal *values*; the source fills them with
`Decimal("nan")` when no budget is set. -/
structure BudgetStatusR where
  month : Str
  budget : PyDec
  total : PyDec
  remaining : PyDec
  status : Str
deriving DecidableEq

/-- The method `ExpenseTracker.budget_status`: computes the month total, looks up the
budget; without a budget returns the `no_budget` dictionary with `Decimal("nan")`
sentinels; with one computes `remaining = budget - total` (context subtraction) and
the `remaining >= 0` comparison (which signals on a NaN remaining). -/
def ExpenseTracker.budget_status (t : ExpenseTracker) (mk : Str) :
    Except PyErr BudgetStatusR × ExpenseTracker :=
  let pt := t.total_expenses (some mk)
  let pb := pt.2.get_budget mk
  let res : Except PyErr BudgetStatusR :=
    match pt.1 with
    | .error err => .error err
    | .ok total =>
      match pb.1 with
      | none => .ok ⟨mk, .nan, total, .nan, "no_budget".data⟩
      | some budget =>
        match decSubE budget total with
        | .error err => .error err
        | .ok remaining =>
          match decGeZeroE remaining with
          | .error err => .error err
          | .ok ge =>
            .ok ⟨mk, budget, total, remaining,
                 if ge then "within_budget".data else "exceeded_budget".data⟩
  (res, pb.2)

/-- A nonempty digit string with no spurious leading zero (the integer parts that
`format(d, "f")` can emit). -/
def isCanonDigits : Str → Bool
  | [] => false
  | c :: rest => isDigitChar c && rest.all isDigitChar && (decide (c ≠ '0') || decide (rest = []))

/-- Canonical fixed-point decimal text: exactly what `format(d, "f")` emits for a
non-negative finite decimal — digits, or digits point digits, with no sign, no
exponent and no spurious leading zero. -/
def isCanonAmount (s : Str) : Bool :=
  let ip := s.takeWhile (fun c => decide (c ≠ '.'))
  match s.dropWhile (fun c => decide (c ≠ '.')) with
  | [] => isCanonDigits s
  | _ :: fp => isCanonDigits ip && decide (fp ≠ []) && fp.all isDigitChar

/-- Canonical date text `YYYY-MM-DD`: four-digit year not starting with zero (so
`strftime` reproduces it on Linux), zero-padded month and day, calendar-valid. -/
def isCanonDateStr : Str → Bool
  | [y1, y2, y3, y4, '-', m1, m2, '-', d1, d2] =>
    [y1, y2, y3, y4, m1, m2, d1, d2].all isDigitChar && decide (y1 ≠ '0') &&
    (let y := digitsToNat [y1, y2, y3, y4]
     let m := digitsToNat [m1, m2]
     let d := digitsToNat [d1, d2]
     1 ≤ m && m ≤ 12 && 1 ≤ d && d ≤ daysInMonth y m)
  | _ => false

/-- An expense the strict parsing path could have produced and whose saved form
reparses to the same representation: calendar-valid date with a four-digit year,
nonempty trimmed category and description, and a positive finite amount with
non-positive exponent. -/
def ValidExp (e : Expense) : Bool :=
  validDate e.date && 1000 ≤ e.date.year &&
  decide (e.category ≠ []) && decide (strip e.category = e.category) &&
  decide (e.description ≠ []) && decide (strip e.description = e.description) &&
  (match e.amount with
   | .num false c ex => decide (c ≠ 0) && decide (ex ≤ 0)
   | _ => false)

/-- A budget value whose `format(v, "f")` text reparses to the same representation:
any special value, or a finite value with non-positive exponent. -/
def BudVal : PyDec → Bool
  | .num _ _ e => decide (e ≤ 0)
  | _ => true

/-- One exact decimal addition step on coefficient-exponent pairs of non-negative
decimals: align at the minimum exponent and add coefficients. -/
def foldStepExact (acc x : ℕ × ℤ) : ℕ × ℤ :=
  let F := min acc.2 x.2
  (acc.1 * 10 ^ (acc.2 - F).toNat + x.1 * 10 ^ (x.2 - F).toNat, F)

/-- The exact running sum starting from `Decimal("0")`. -/
def listSumExact (l : List (ℕ × ℤ)) : ℕ × ℤ := l.foldl foldStepExact (0, 0)

/-- Whether a coefficient-exponent pair is representable as-is under the default
decimal context: at most 28 significant digits, exponent at least `Etiny`, exponent
and adjusted exponent at most `Emax`.  An exact arithmetic result satisfying this is
returned unchanged (no rounding, no underflow flush, no `Overflow`). -/
def stepExactOk (p : ℕ × ℤ) : Bool :=
  decide (ndigits p.1 ≤ prec) && decide (Etiny ≤ p.2) && decide (p.2 ≤ Emax) &&
  decide (p.2 + (ndigits p.1 : ℤ) - 1 ≤ Emax)

/-- Whether every partial sum along the fold is representable as-is under the default
context (28 significant digits and the `[Etiny, Emax]` exponent window), so that no
rounding, underflow or overflow occurs. -/
def exactOk : (ℕ × ℤ) → List (ℕ × ℤ) → Bool
  | _, [] => true
  | acc, x :: xs =>
    let acc2 := foldStepExact acc x
    stepExactOk acc2 && exactOk acc2 xs

/-- Extract the coefficient-exponent pair of a non-negative finite decimal. -/
def finPos : PyDec → Option (ℕ × ℤ)
  | .num false c e => some (c, e)
  | _ => none

/-- Rational value of a coefficient-exponent pair. -/
def pairVal (p : ℕ × ℤ) : ℚ := (p.1 : ℚ) * (10 : ℚ) ^ p.2

/-- Whether the exact difference of two non-negative finite decimals is representable
as-is under the default context (28 significant digits, exponent window
`[Etiny, Emax]`), so that `decSubE` returns it exactly. -/
def subFit (b t : ℕ × ℤ) : Bool :=
  let E := min b.2 t.2
  let m : ℤ := (b.1 : ℤ) * 10 ^ (b.2 - E).toNat - (t.1 : ℤ) * 10 ^ (t.2 - E).toNat
  stepExactOk (m.natAbs, E)

section DigitLemmas

lemma char_toNat_inj {c d : Char} (h : c.toNat = d.toNat) : c = d := by
  have h1 := Char.ofNat_toNat c
  have h2 := Char.ofNat_toNat d
  rw [h] at h1
  exact h1.symm.trans h2

lemma toNat_digitChar {d : ℕ} (h : d < 10) : (digitChar d).toNat = 48 + d := by
  interval_cases d <;> decide

lemma charVal_digitChar {d : ℕ} (h : d < 10) : charVal (digitChar d) = d := by
  interval_cases d <;> decide

lemma isDigitChar_digitChar {d : ℕ} (h : d < 10) : isDigitChar (digitChar d) = true := by
  interval_cases d <;> decide

lemma digitChar_charVal {c : Char} (h : isDigitChar c = true) : digitChar (charVal c) = c := by
  simp only [isDigitChar, Bool.and_eq_true, decide_eq_true_eq] at h
  apply char_toNat_inj
  unfold charVal
  rw [toNat_digitChar (by omega : c.toNat - 48 < 10)]
  omega

lemma charVal_lt_ten {c : Char} (h : isDigitChar c = true) : charVal c < 10 := by
  simp only [isDigitChar, Bool.and_eq_true, decide_eq_true_eq] at h
  unfold charVal
  omega

lemma charVal_pos {c : Char} (h : isDigitChar c = true) (h0 : c ≠ '0') : 0 < charVal c := by
  rcases Nat.eq_zero_or_pos (charVal c) with hz | hp
  · exfalso
    apply h0
    have := digitChar_charVal h
    rw [hz] at this
    exact this.symm
  · exact hp

lemma natDigitsAux_eq {fuel n : ℕ} (h : n ≤ fuel) :
    natDigitsAux fuel n = ((Nat.digits 10 n).map digitChar).reverse := by
  induction fuel generalizing n with
  | zero =>
    have : n = 0 := Nat.le_zero.mp h
    subst this
    simp [natDigitsAux]
  | succ f ih =>
    by_cases hn : n = 0
    · subst hn
      simp [natDigitsAux]
    · have hstep : Nat.digits 10 n = n % 10 :: Nat.digits 10 (n / 10) :=
        Nat.digits_def' (by norm_num) (Nat.pos_of_ne_zero hn)
    
      have hdiv : n / 10 ≤ f := by
        have := Nat.div_lt_self (Nat.pos_of_ne_zero hn) (by norm_num : 1 < 10)
        omega
      simp only [natDigitsAux, hn, if_false, ih hdiv, hstep, List.map_cons, List.reverse_cons]

lemma natDigits_eq {n : ℕ} (h : n ≠ 0) :
    natDigits n = ((Nat.digits 10 n).map digitChar).reverse := by
  unfold natDigits
  rw [if_neg h, natDigitsAux_eq le_rfl]

lemma ndigits_eq (n : ℕ) : ndigits n = (Nat.digits 10 n).length := by
  unfold ndigits
  rw [natDigitsAux_eq le_rfl]
  simp

lemma map_charVal_digitChar {l : List ℕ} (h : ∀ d ∈ l, d < 10) :
    l.map (charVal ∘ digitChar) = l := by
  induction l with
  | nil => rfl
  | cons d ds ih =>
    simp only [List.map_cons, Function.comp_apply, List.cons.injEq]
    exact ⟨charVal_digitChar (h d (List.mem_cons_self d ds)),
           ih (fun x hx => h x (List.mem_cons_of_mem d hx))⟩

lemma digitsToNat_natDigits (n : ℕ) : digitsToNat (natDigits n) = n := by
  by_cases h : n = 0
  · subst h; decide
  · rw [natDigits_eq h]
    unfold digitsToNat
    rw [List.reverse_reverse, List.map_map]
    rw [map_charVal_digitChar (fun d hd => Nat.digits_lt_base (by norm_num) hd),
        Nat.ofDigits_digits]

end DigitLemmas

lemma map_id_of_forall {f : Char → Char} {l : Str} (h : ∀ c ∈ l, f c = c) : l.map f = l := by
  induction l with
  | nil => rfl
  | cons c cs ih =>
    simp only [List.map_cons, List.cons.injEq]
    exact ⟨h c (List.mem_cons_self c cs), ih (fun x hx => h x (List.mem_cons_of_mem c hx))⟩

lemma digitsToNat_append (A B : Str) :
    digitsToNat (A ++ B) = digitsToNat A * 10 ^ B.length + digitsToNat B := by
  unfold digitsToNat
  rw [List.reverse_append, List.map_append,
      @Nat.ofDigits_append 10 (B.reverse.map charVal) (A.reverse.map charVal)]
  simp only [List.length_map, List.length_reverse]
  ring

lemma digitsToNat_replicate_zero (j : ℕ) : digitsToNat (List.replicate j '0') = 0 := by
  induction j with
  | zero => rfl
  | succ n ih =>
    rw [List.replicate_succ']
    rw [digitsToNat_append, ih]
    decide

lemma digitsToNat_cons_zero (M : Str) : digitsToNat ('0' :: M) = digitsToNat M := by
  have h := digitsToNat_append ['0'] M
  have h0 : digitsToNat ['0'] = 0 := by decide
  simpa [h0] using h

lemma natDigits_ne_nil (n : ℕ) : natDigits n ≠ [] := by
  by_cases h : n = 0
  · subst h; decide
  · rw [natDigits_eq h]
    simp only [ne_eq, List.reverse_eq_nil_iff, List.map_eq_nil_iff]
    exact Nat.digits_ne_nil_iff_ne_zero.mpr h

lemma natDigits_all (n : ℕ) : ∀ c ∈ natDigits n, isDigitChar c = true := by
  by_cases h : n = 0
  · subst h; decide
  · rw [natDigits_eq h]
    intro c hc
    rw [List.mem_reverse, List.mem_map] at hc
    obtain ⟨d, hd, rfl⟩ := hc
    exact isDigitChar_digitChar (Nat.digits_lt_base (by norm_num) hd)

lemma digitsToNat_lt {L : Str} (h : ∀ c ∈ L, isDigitChar c = true) :
    digitsToNat L < 10 ^ L.length := by
  induction L with
  | nil => decide
  | cons c M ih =>
    have hsplit := digitsToNat_append [c] M
    simp only [List.singleton_append] at hsplit
    rw [hsplit]
    have hc : charVal c < 10 :=
      charVal_lt_ten (h c (List.mem_cons_self c M))
    have hM := ih (fun x hx => h x (List.mem_cons_of_mem c hx))
    have h1 : digitsToNat [c] ≤ 9 := by
      have : digitsToNat [c] = charVal c := by
        unfold digitsToNat
        simp [Nat.ofDigits]
      omega
    have hpow : (0 : ℕ) < 10 ^ M.length := Nat.pos_pow_of_pos M.length (by norm_num)
    calc digitsToNat [c] * 10 ^ M.length + digitsToNat M
        < digitsToNat [c] * 10 ^ M.length + 10 ^ M.length := by omega
      _ = (digitsToNat [c] + 1) * 10 ^ M.length := by ring
      _ ≤ 10 * 10 ^ M.length := by
          have : digitsToNat [c] + 1 ≤ 10 := by omega
          exact Nat.mul_le_mul_right _ this
      _ = 10 ^ (c :: M).length := by
          simp [List.length_cons]
          ring

lemma natDigits_length {n : ℕ} (h : n ≠ 0) : (natDigits n).length = Nat.log 10 n + 1 := by
  rw [natDigits_eq h]
  simp only [List.length_reverse, List.length_map]
  exact Nat.digits_len 10 n (by norm_num) h

lemma natDigits_head_ne_zero {n : ℕ} (h : n ≠ 0) {c : Char} {rest : Str}
    (heq : natDigits n = c :: rest) : c ≠ '0' := by
  intro hc0
  subst hc0
  have hkey := digitsToNat_natDigits n
  rw [heq, digitsToNat_cons_zero] at hkey
  have hall : ∀ x ∈ rest, isDigitChar x = true := by
    intro x hx
    exact natDigits_all n x (heq ▸ List.mem_cons_of_mem _ hx)
  have hlt : digitsToNat rest < 10 ^ rest.length := digitsToNat_lt hall
  have hlen : rest.length = Nat.log 10 n := by
    have := natDigits_length h
    rw [heq] at this
    simp only [List.length_cons] at this
    omega
  have hge : 10 ^ Nat.log 10 n ≤ n := Nat.pow_log_le_self 10 h
  rw [hkey, hlen] at hlt
  omega

lemma digitsToNat_pos {c : Char} {rest : Str} (hc : isDigitChar c = true) (h0 : c ≠ '0') :
    0 < digitsToNat (c :: rest) := by
  have hsplit := digitsToNat_append [c] rest
  simp only [List.singleton_append] at hsplit
  rw [hsplit]
  have hpos : 0 < charVal c := charVal_pos hc h0
  have hval : 0 < digitsToNat [c] := by
    unfold digitsToNat
    simpa [Nat.ofDigits] using hpos
  positivity

lemma natDigits_digitsToNat {L : Str} (hall : ∀ c ∈ L, isDigitChar c = true)
    (hne : L ≠ []) (hhead : ∀ c rest, L = c :: rest → c ≠ '0') :
    natDigits (digitsToNat L) = L := by
  obtain ⟨c, rest, rfl⟩ : ∃ c rest, L = c :: rest := by
    cases L with
    | nil => exact absurd rfl hne
    | cons c rest => exact ⟨c, rest, rfl⟩
  have hc := hall c (List.mem_cons_self c rest)
  have hc0 := hhead c rest rfl
  have hpos := @digitsToNat_pos c rest hc hc0
  have hD10 : ∀ d ∈ (c :: rest).reverse.map charVal, d < 10 := by
    intro d hd
    rw [List.mem_map] at hd
    obtain ⟨x, hx, rfl⟩ := hd
    exact charVal_lt_ten (hall x (List.mem_reverse.mp hx))
  have hsplit : (c :: rest).reverse.map charVal = rest.reverse.map charVal ++ [charVal c] := by
    rw [List.reverse_cons, List.map_append, List.map_cons, List.map_nil]
  have hDlast : ∀ hh : (c :: rest).reverse.map charVal ≠ [],
      ((c :: rest).reverse.map charVal).getLast hh ≠ 0 := by
    intro hh
    have hsome : ((c :: rest).reverse.map charVal).getLast? = some (charVal c) := by
      rw [hsplit]
      exact List.getLast?_concat _
    rw [List.getLast?_eq_getLast _ hh] at hsome
    have := Option.some.inj hsome
    rw [this]
    exact (charVal_pos hc hc0).ne'
  have hdig : Nat.digits 10 (digitsToNat (c :: rest)) = (c :: rest).reverse.map charVal := by
    unfold digitsToNat
    exact Nat.digits_ofDigits 10 (by norm_num) _ hD10 hDlast
  rw [natDigits_eq hpos.ne', hdig, List.map_map, map_id_of_forall, List.reverse_reverse]
  intro x hx
  exact digitChar_charVal (hall x (List.mem_reverse.mp hx))

lemma takeWhile_eq_self_of_all {p : Char → Bool} {l : Str} (h : ∀ a ∈ l, p a = true) :
    l.takeWhile p = l := by
  induction l with
  | nil => rfl
  | cons c cs ih =>
    rw [List.takeWhile_cons, h c (List.mem_cons_self c cs)]
    rw [ih (fun x hx => h x (List.mem_cons_of_mem c hx))]
    simp

lemma dropWhile_eq_nil_of_all {p : Char → Bool} {l : Str} (h : ∀ a ∈ l, p a = true) :
    l.dropWhile p = [] := by
  induction l with
  | nil => rfl
  | cons c cs ih =>
    rw [List.dropWhile_cons, h c (List.mem_cons_self c cs)]
    simpa using ih (fun x hx => h x (List.mem_cons_of_mem c hx))

lemma takeWhile_middle {p : Char → Bool} {A : Str} (hA : ∀ a ∈ A, p a = true)
    {b : Char} (hb : p b = false) (B : Str) : (A ++ b :: B).takeWhile p = A := by
  induction A with
  | nil => simp [List.takeWhile_cons, hb]
  | cons c cs ih =>
    rw [List.cons_append, List.takeWhile_cons, hA c (List.mem_cons_self c cs)]
    rw [ih (fun x hx => hA x (List.mem_cons_of_mem c hx))]
    simp

lemma dropWhile_middle {p : Char → Bool} {A : Str} (hA : ∀ a ∈ A, p a = true)
    {b : Char} (hb : p b = false) (B : Str) : (A ++ b :: B).dropWhile p = b :: B := by
  induction A with
  | nil => simp [List.dropWhile_cons, hb]
  | cons c cs ih =>
    rw [List.cons_append, List.dropWhile_cons, hA c (List.mem_cons_self c cs)]
    simpa using ih (fun x hx => hA x (List.mem_cons_of_mem c hx))

lemma dropWhile_head_false {p : Char → Bool} {l : Str} {c : Char} {rest : Str}
    (h : l.dropWhile p = c :: rest) : p c = false := by
  induction l with
  | nil => exact absurd h (by simp)
  | cons x xs ih =>
    rw [List.dropWhile_cons] at h
    by_cases hx : p x = true
    · rw [if_pos hx] at h
      exact ih h
    · rw [if_neg hx] at h
      have hxc : x = c := (List.cons.injEq _ _ _ _ ▸ h).1
      rw [Bool.not_eq_true] at hx
      exact hxc ▸ hx

lemma strip_eq_self_of {l : Str} (h : ∀ c ∈ l, isSpaceChar c = false) : strip l = l := by
  unfold strip
  have h1 : l.dropWhile isSpaceChar = l := by
    cases l with
    | nil => rfl
    | cons c cs =>
      rw [List.dropWhile_cons, h c (List.mem_cons_self c cs)]
      simp
  rw [h1]
  have h2 : l.reverse.dropWhile isSpaceChar = l.reverse := by
    cases hrev : l.reverse with
    | nil => rfl
    | cons c cs =>
      rw [List.dropWhile_cons, h c (by rw [← List.mem_reverse, hrev]; exact List.mem_cons_self c cs)]
      simp
  rw [h2, List.reverse_reverse]

lemma filter_eq_self_of {p : Char → Bool} {l : Str} (h : ∀ c ∈ l, p c = true) :
    l.filter p = l :=
  List.filter_eq_self.mpr h

lemma eq_replicate_of_all_zero {l : Str} (h : ∀ c ∈ l, c = '0') :
    l = List.replicate l.length '0' := by
  apply List.eq_replicate_of_mem
  exact h

lemma isDigitChar_iff_toNat {c : Char} :
    isDigitChar c = true ↔ (48 ≤ c.toNat ∧ c.toNat ≤ 57) := by
  simp [isDigitChar]

lemma not_space_of_digit_or_dot {c : Char} (h : isDigitChar c = true ∨ c = '.') :
    isSpaceChar c = false := by
  rcases h with hd | rfl
  · by_contra hs
    rw [Bool.not_eq_false] at hs
    unfold isSpaceChar at hs
    simp only [Bool.or_eq_true, decide_eq_true_eq] at hs
    rw [isDigitChar_iff_toNat] at hd
    rcases hs with ((((h1 | h1) | h1) | h1) | h1) | h1 <;> subst h1 <;> simp_all
  · decide

lemma ne_underscore_of_digit_or_dot {c : Char} (h : isDigitChar c = true ∨ c = '.') :
    c ≠ '_' := by
  rcases h with hd | rfl
  · intro heq
    subst heq
    exact absurd hd (by decide)
  · decide

lemma not_exp_of_digit_or_dot {c : Char} (h : isDigitChar c = true ∨ c = '.') :
    (decide (c ≠ 'e') && decide (c ≠ 'E')) = true := by
  rcases h with hd | rfl
  · simp only [Bool.and_eq_true, decide_eq_true_eq]
    constructor <;> intro heq <;> subst heq <;> exact absurd hd (by decide)
  · decide

lemma toLower_of_digit_or_dot {c : Char} (h : isDigitChar c = true ∨ c = '.') :
    Char.toLower c = c := by
  rcases h with hd | rfl
  · have hcd := digitChar_charVal hd
    have hlt := charVal_lt_ten hd
    rw [← hcd]
    interval_cases h : charVal c <;> decide
  · decide

lemma isCanonDigits_facts {l : Str} (h : isCanonDigits l = true) :
    l ≠ [] ∧ (∀ c ∈ l, isDigitChar c = true) ∧
      (∀ c rest, l = c :: rest → (c ≠ '0' ∨ rest = [])) := by
  cases l with
  | nil => exact absurd h (by decide)
  | cons c rest =>
    unfold isCanonDigits at h
    simp only [Bool.and_eq_true, Bool.or_eq_true, decide_eq_true_eq, List.all_eq_true] at h
    refine ⟨by simp, ?_, ?_⟩
    · intro x hx
      rcases List.mem_cons.mp hx with rfl | hx2
      · exact h.1.1
      · exact h.1.2 x hx2
    · intro c2 rest2 heq
      have hc : c2 = c := (List.cons.injEq _ _ _ _ ▸ heq).1.symm
      have hr : rest2 = rest := (List.cons.injEq _ _ _ _ ▸ heq).2.symm
      subst hc
      subst hr
      exact h.2

lemma isCanonAmount_cases {s : Str} (h : isCanonAmount s = true) :
    (isCanonDigits s = true) ∨
    (∃ ip fp, s = ip ++ '.' :: fp ∧ isCanonDigits ip = true ∧ fp ≠ [] ∧
      (∀ c ∈ fp, isDigitChar c = true)) := by
  unfold isCanonAmount at h
  cases hdrop : s.dropWhile (fun c => decide (c ≠ '.')) with
  | nil =>
    rw [hdrop] at h
    exact Or.inl h
  | cons d fp =>
    rw [hdrop] at h
    simp only [Bool.and_eq_true, decide_eq_true_eq, List.all_eq_true] at h
    right
    refine ⟨s.takeWhile (fun c => decide (c ≠ '.')), fp, ?_, h.1.1, h.1.2, h.2⟩
    have hd : d = '.' := by
      have := dropWhile_head_false hdrop
      simpa using this
    subst hd
    rw [← hdrop]
    exact (List.takeWhile_append_dropWhile _ _).symm

lemma parseMantissa_digits {s : Str} (hne : s ≠ []) (hd : ∀ c ∈ s, isDigitChar c = true) :
    parseMantissa s = some (digitsToNat s, 0) := by
  unfold parseMantissa
  rw [takeWhile_eq_self_of_all hd, dropWhile_eq_nil_of_all hd]
  simp [hne]

lemma parseMantissa_dot {ip fp : Str} (hip : ∀ c ∈ ip, isDigitChar c = true)
    (hfp : ∀ c ∈ fp, isDigitChar c = true) (hne : ip ≠ [] ∨ fp ≠ []) :
    parseMantissa (ip ++ '.' :: fp) = some (digitsToNat (ip ++ fp), -(fp.length : ℤ)) := by
  unfold parseMantissa
  rw [takeWhile_middle hip (by decide) fp, dropWhile_middle hip (by decide) fp]
  have hcond : (fp.all isDigitChar && (decide (ip ≠ []) || decide (fp ≠ []))) = true := by
    simp only [Bool.and_eq_true, Bool.or_eq_true, decide_eq_true_eq, List.all_eq_true]
    exact ⟨hfp, hne⟩
  simp only [hcond, if_true]

lemma parseNumeric_of_class {s : Str} (hclass : ∀ c ∈ s, isDigitChar c = true ∨ c = '.') :
    parseNumeric s = parseMantissa s := by
  unfold parseNumeric
  rw [List.span_eq_take_drop]
  rw [takeWhile_eq_self_of_all (fun c hc => not_exp_of_digit_or_dot (hclass c hc)),
      dropWhile_eq_nil_of_all (fun c hc => not_exp_of_digit_or_dot (hclass c hc))]

lemma lowerStr_of_class {s : Str} (hclass : ∀ c ∈ s, isDigitChar c = true ∨ c = '.') :
    lowerStr s = s :=
  map_id_of_forall (fun c hc => toLower_of_digit_or_dot (hclass c hc))

lemma class_no_letter {s : Str} (hclass : ∀ c ∈ s, isDigitChar c = true ∨ c = '.')
    (c : Char) (hc : c ∈ s) (hlet : isDigitChar c = false ∧ c ≠ '.') : False := by
  rcases hclass c hc with h1 | h1
  · rw [h1] at hlet
    exact absurd hlet.1 (by decide)
  · exact hlet.2 h1

lemma parseUnsigned_of_class {s : Str} (hclass : ∀ c ∈ s, isDigitChar c = true ∨ c = '.')
    (neg : Bool) : parseUnsigned neg s = (parseMantissa s).map fun p => .num neg p.1 p.2 := by
  unfold parseUnsigned
  have hlow : lowerStr s = s := lowerStr_of_class hclass
  rw [hlow]
  have hinf : (decide (s = "inf".data) || decide (s = "infinity".data)) = false := by
    simp only [Bool.or_eq_false_iff, decide_eq_false_iff_not]
    constructor
    · intro heq
      exact class_no_letter hclass 'i' (by rw [heq]; decide) (by decide)
    · intro heq
      exact class_no_letter hclass 'i' (by rw [heq]; decide) (by decide)
  have hnan : ((decide (s.take 3 = "nan".data) && (s.drop 3).all isDigitChar) ||
      (decide (s.take 4 = "snan".data) && (s.drop 4).all isDigitChar)) = false := by
    simp only [Bool.or_eq_false_iff, Bool.and_eq_false_iff]
    constructor
    · left
      simp only [decide_eq_false_iff_not]
      intro heq
      exact class_no_letter hclass 'n' (List.mem_of_mem_take (by rw [heq]; decide)) (by decide)
    · left
      simp only [decide_eq_false_iff_not]
      intro heq
      exact class_no_letter hclass 's' (List.mem_of_mem_take (by rw [heq]; decide)) (by decide)
  simp only [hinf, hnan, Bool.false_eq_true, if_false]
  exact congrArg _ (parseNumeric_of_class hclass)

lemma decimalParse_of_class {s : Str} (hne : s ≠ [])
    (hclass : ∀ c ∈ s, isDigitChar c = true ∨ c = '.') :
    decimalParse s = (parseMantissa s).map fun p => .num false p.1 p.2 := by
  unfold decimalParse
  rw [strip_eq_self_of (fun c hc => not_space_of_digit_or_dot (hclass c hc)),
      filter_eq_self_of (fun c hc => by
        simp only [decide_eq_true_eq]
        exact ne_underscore_of_digit_or_dot (hclass c hc))]
  obtain ⟨c, rest, rfl⟩ : ∃ c rest, s = c :: rest := by
    cases s with
    | nil => exact absurd rfl hne
    | cons c rest => exact ⟨c, rest, rfl⟩
  have hcplus : c ≠ '+' := by
    intro heq
    refine class_no_letter hclass '+' ?_ (by decide)
    rw [← heq]
    exact List.mem_cons_self c rest
  have hcminus : c ≠ '-' := by
    intro heq
    refine class_no_letter hclass '-' ?_ (by decide)
    rw [← heq]
    exact List.mem_cons_self c rest
  have hred : (match c :: rest with
      | [] => (none : Option PyDec)
      | c2 :: rest2 =>
        if c2 = '+' then parseUnsigned false rest2
        else if c2 = '-' then parseUnsigned true rest2
        else parseUnsigned false (c2 :: rest2)) =
      (if c = '+' then parseUnsigned false rest
       else if c = '-' then parseUnsigned true rest
       else parseUnsigned false (c :: rest)) := rfl
  rw [hred, if_neg hcplus, if_neg hcminus]
  exact parseUnsigned_of_class hclass false

lemma digitsToNat_eq_zero_all_zero {L : Str} (hall : ∀ c ∈ L, isDigitChar c = true)
    (h : digitsToNat L = 0) : ∀ c ∈ L, c = '0' := by
  induction L with
  | nil => intro c hc; exact absurd hc (List.not_mem_nil c)
  | cons c M ih =>
    have hsplit := digitsToNat_append [c] M
    simp only [List.singleton_append] at hsplit
    rw [hsplit] at h
    have hc1 : digitsToNat [c] = charVal c := by
      unfold digitsToNat
      simp [Nat.ofDigits]
    rw [hc1] at h
    have hcz : charVal c = 0 := by
      have hpow : (0 : ℕ) < 10 ^ M.length := Nat.pos_pow_of_pos M.length (by norm_num)
      by_contra hne
      have : 1 ≤ charVal c := Nat.pos_of_ne_zero hne
      nlinarith
    have hMz : digitsToNat M = 0 := by omega
    intro x hx
    rcases List.mem_cons.mp hx with rfl | hx2
    · have := digitChar_charVal (hall x (List.mem_cons_self x M))
      rw [hcz] at this
      exact this.symm
    · exact ih (fun y hy => hall y (List.mem_cons_of_mem c hy)) hMz x hx2

lemma decFormat_pos_unfold (C : ℕ) (E : ℤ) :
    decFormat (.num false C E) =
      (if 0 ≤ E then
        (if C = 0 then ['0'] else natDigits C ++ List.replicate E.toNat '0')
      else
        (if (natDigits C).length ≤ (-E).toNat then
          ['0', '.'] ++ List.replicate ((-E).toNat - (natDigits C).length) '0' ++ natDigits C
        else
          (natDigits C).take ((natDigits C).length - (-E).toNat) ++ ['.'] ++
            (natDigits C).drop ((natDigits C).length - (-E).toNat))) := by
  rfl

lemma decFormat_canon_int {s : Str} (h : isCanonDigits s = true) :
    decFormat (.num false (digitsToNat s) 0) = s := by
  obtain ⟨hne, hall, hhead⟩ := isCanonDigits_facts h
  rw [decFormat_pos_unfold]
  rw [if_pos le_rfl]
  simp only [Int.toNat_zero, List.replicate_zero, List.append_nil]
  by_cases hz : digitsToNat s = 0
  · rw [if_pos hz]
    have hallz := digitsToNat_eq_zero_all_zero hall hz
    obtain ⟨c, rest, rfl⟩ : ∃ c rest, s = c :: rest := by
      cases s with
      | nil => exact absurd rfl hne
      | cons c rest => exact ⟨c, rest, rfl⟩
    have hc0 : c = '0' := hallz c (List.mem_cons_self c rest)
    rcases hhead c rest rfl with hne0 | hrest
    · exact absurd hc0 hne0
    · rw [hrest, hc0]
  · rw [if_neg hz]
    apply natDigits_digitsToNat hall hne
    intro c rest heq
    rcases hhead c rest heq with hne0 | hrest
    · exact hne0
    · intro hc0
      apply hz
      rw [heq, hrest, hc0]
      decide

lemma decFormat_canon_dot {ip fp : Str} (hip : isCanonDigits ip = true) (hfpne : fp ≠ [])
    (hfp : ∀ c ∈ fp, isDigitChar c = true) :
    decFormat (.num false (digitsToNat (ip ++ fp)) (-(fp.length : ℤ))) = ip ++ '.' :: fp := by
  obtain ⟨hipne, hipall, hiphead⟩ := isCanonDigits_facts hip
  have hfplen : 0 < fp.length := List.length_pos.mpr hfpne
  have hEneg : ¬ (0 : ℤ) ≤ -(fp.length : ℤ) := by
    simp only [not_le]
    omega
  have hk : ((- -(fp.length : ℤ))).toNat = fp.length := by omega
  rw [decFormat_pos_unfold, if_neg hEneg, hk]
  obtain ⟨i, ip2, rfl⟩ : ∃ i ip2, ip = i :: ip2 := by
    cases ip with
    | nil => exact absurd rfl hipne
    | cons i ip2 => exact ⟨i, ip2, rfl⟩
  by_cases hi : i = '0'
  · -- the integer part is exactly "0"
    have hip2nil : ip2 = [] := by
      rcases hiphead i ip2 rfl with h1 | h2
      · exact absurd hi h1
      · exact h2
    subst hip2nil
    subst hi
    have hCval : digitsToNat (['0'] ++ fp) = digitsToNat fp := by
      rw [List.singleton_append, digitsToNat_cons_zero]
    rw [hCval]
    by_cases hz : digitsToNat fp = 0
    · rw [hz]
      have hds : natDigits 0 = ['0'] := by decide
      rw [hds]
      have hle : ([ '0' ] : Str).length ≤ fp.length := by
        simp only [List.length_singleton]
        omega
      rw [if_pos hle]
      have hfpz : fp = List.replicate fp.length '0' :=
        eq_replicate_of_all_zero (digitsToNat_eq_zero_all_zero hfp hz)
      have hsplitrep : List.replicate fp.length '0' =
          List.replicate (fp.length - 1) '0' ++ ['0'] := by
        have h1 : fp.length = (fp.length - 1) + 1 := by omega
        rw [h1, List.replicate_succ']
        congr 2
      conv_rhs => rw [hfpz, hsplitrep]
      simp
    · set T := fp.takeWhile (fun c => decide (c = '0')) with hT
      set M := fp.dropWhile (fun c => decide (c = '0')) with hM
      have hfp_eq : T ++ M = fp := List.takeWhile_append_dropWhile _ _
      have hTzero : ∀ c ∈ T, c = '0' := by
        intro c hc
        have := List.mem_takeWhile_imp hc
        simpa using this
      have hTrep : T = List.replicate T.length '0' := eq_replicate_of_all_zero hTzero
      have hTval : digitsToNat T = 0 := by
        rw [hTrep]
        exact digitsToNat_replicate_zero _
      have hval : digitsToNat fp = digitsToNat M := by
        rw [← hfp_eq, digitsToNat_append, hTval]
        omega
      have hMne : M ≠ [] := by
        intro hnil
        apply hz
        rw [hval, hnil]
        rfl
      obtain ⟨m, M2, hMcons⟩ : ∃ m M2, M = m :: M2 := by
        cases hMc : M with
        | nil => exact absurd hMc hMne
        | cons m M2 => exact ⟨m, M2, rfl⟩
      have hm0 : m ≠ '0' := by
        have := dropWhile_head_false (hM ▸ hMcons : fp.dropWhile (fun c => decide (c = '0')) = m :: M2)
        simpa using this
      have hMall : ∀ c ∈ M, isDigitChar c = true := by
        intro c hc
        apply hfp
        rw [← hfp_eq]
        exact List.mem_append_right T hc
      have hMnat : natDigits (digitsToNat M) = M := by
        apply natDigits_digitsToNat hMall hMne
        intro c rest heq
        rw [hMcons] at heq
        have : c = m := (List.cons.injEq _ _ _ _ ▸ heq).1.symm
        rw [this]
        exact hm0
      rw [hval, hMnat]
      have hlenM : M.length ≤ fp.length := by
        rw [← hfp_eq]
        simp only [List.length_append]
        omega
      rw [if_pos hlenM]
      have hTlen : fp.length - M.length = T.length := by
        rw [← hfp_eq]
        simp only [List.length_append]
        omega
      rw [hTlen, ← hTrep]
      conv_rhs => rw [← hfp_eq]
      simp
  · -- the integer part has a nonzero leading digit
    have hCall : ∀ c ∈ (i :: ip2) ++ fp, isDigitChar c = true := by
      intro c hc
      rcases List.mem_append.mp hc with h1 | h2
      · exact hipall c h1
      · exact hfp c h2
    have hds : natDigits (digitsToNat ((i :: ip2) ++ fp)) = (i :: ip2) ++ fp := by
      apply natDigits_digitsToNat hCall (by simp)
      intro c rest heq
      rw [List.cons_append] at heq
      have : c = i := (List.cons.injEq _ _ _ _ ▸ heq).1.symm
      rw [this]
      exact hi
    rw [hds]
    have hgt : ¬ ((i :: ip2) ++ fp).length ≤ fp.length := by
      simp only [List.length_append, not_le, List.length_cons]
      omega
    rw [if_neg hgt]
    have htk : ((i :: ip2) ++ fp).length - fp.length = (i :: ip2).length := by
      simp only [List.length_append]
      omega
    rw [htk, List.take_left, List.drop_left]
    simp

lemma filter_isDigit_dot {ip fp : Str} (hip : ∀ c ∈ ip, isDigitChar c = true)
    (hfp : ∀ c ∈ fp, isDigitChar c = true) :
    (ip ++ '.' :: fp).filter isDigitChar = ip ++ fp := by
  rw [List.filter_append, List.filter_cons]
  rw [filter_eq_self_of hip, filter_eq_self_of hfp]
  have hdot : isDigitChar '.' = false := by decide
  simp [hdot]

lemma canonAmount_roundtrip {s : Str} (h : isCanonAmount s = true) :
    ∃ C E, decimalParse s = some (.num false C E) ∧ decFormat (.num false C E) = s ∧
      E ≤ 0 ∧ C = digitsToNat (s.filter isDigitChar) := by
  rcases isCanonAmount_cases h with hint | ⟨ip, fp, rfl, hip, hfpne, hfp⟩
  · obtain ⟨hne, hall, _⟩ := isCanonDigits_facts hint
    refine ⟨digitsToNat s, 0, ?_, decFormat_canon_int hint, le_rfl, ?_⟩
    · rw [decimalParse_of_class hne (fun c hc => Or.inl (hall c hc)),
          parseMantissa_digits hne hall]
      rfl
    · rw [filter_eq_self_of hall]
  · obtain ⟨hipne, hipall, _⟩ := isCanonDigits_facts hip
    have hclass : ∀ c ∈ ip ++ '.' :: fp, isDigitChar c = true ∨ c = '.' := by
      intro c hc
      rcases List.mem_append.mp hc with h1 | h2
      · exact Or.inl (hipall c h1)
      · rcases List.mem_cons.mp h2 with rfl | h3
        · exact Or.inr rfl
        · exact Or.inl (hfp c h3)
    have hsne : ip ++ '.' :: fp ≠ [] := by
      intro hnil
      exact hipne (List.append_eq_nil.mp hnil).1
    refine ⟨digitsToNat (ip ++ fp), -(fp.length : ℤ), ?_,
            decFormat_canon_dot hip hfpne hfp, by omega, ?_⟩
    · rw [decimalParse_of_class hsne hclass, parseMantissa_dot hipall hfp (Or.inl hipne)]
      rfl
    · rw [filter_isDigit_dot hipall hfp]

lemma parseMantissa_decFormat_body {C : ℕ} {E : ℤ} (hE : E ≤ 0) :
    parseMantissa (decFormat (.num false C E)) = some (C, E) ∧
    (∀ c ∈ decFormat (.num false C E), isDigitChar c = true ∨ c = '.') ∧
    decFormat (.num false C E) ≠ [] := by
  rcases eq_or_lt_of_le hE with hE0 | hEneg
  · -- exponent zero
    subst hE0
    rw [decFormat_pos_unfold, if_pos le_rfl]
    simp only [Int.toNat_zero, List.replicate_zero, List.append_nil]
    by_cases hz : C = 0
    · subst hz
      rw [if_pos rfl]
      refine ⟨?_, ?_, by decide⟩
      · decide
      · decide
    · rw [if_neg hz]
      refine ⟨?_, fun c hc => Or.inl (natDigits_all C c hc), natDigits_ne_nil C⟩
      rw [parseMantissa_digits (natDigits_ne_nil C) (natDigits_all C),
          digitsToNat_natDigits C]
  · -- negative exponent
    have hk1 : 1 ≤ (-E).toNat := by omega
    rw [decFormat_pos_unfold, if_neg (by omega)]
    by_cases hlen : (natDigits C).length ≤ (-E).toNat
    · rw [if_pos hlen]
      set j := (-E).toNat - (natDigits C).length with hj
      have hshape : (['0', '.'] ++ List.replicate j '0' ++ natDigits C : Str) =
          ['0'] ++ '.' :: (List.replicate j '0' ++ natDigits C) := by
        simp
      rw [hshape]
      have hfpall : ∀ c ∈ List.replicate j '0' ++ natDigits C, isDigitChar c = true := by
        intro c hc
        rcases List.mem_append.mp hc with h1 | h2
        · rw [List.eq_of_mem_replicate h1]
          decide
        · exact natDigits_all C c h2
      refine ⟨?_, ?_, by simp⟩
      · rw [parseMantissa_dot (by decide) hfpall (Or.inl (by decide))]
        have hcoeff : digitsToNat (['0'] ++ (List.replicate j '0' ++ natDigits C)) = C := by
          rw [List.singleton_append, digitsToNat_cons_zero, digitsToNat_append]
          rw [digitsToNat_replicate_zero, digitsToNat_natDigits]
          ring
        have hexp : -((List.replicate j '0' ++ natDigits C).length : ℤ) = E := by
          simp only [List.length_append, List.length_replicate]
          omega
        rw [hcoeff, hexp]
      · intro c hc
        rcases List.mem_append.mp hc with h1 | h2
        · rw [List.mem_singleton.mp h1]
          left
          decide
        · rcases List.mem_cons.mp h2 with rfl | h3
          · exact Or.inr rfl
          · exact Or.inl (hfpall c h3)
    · rw [if_neg hlen]
      set t := (natDigits C).length - (-E).toNat with ht
      have hshape : ((natDigits C).take t ++ ['.'] ++ (natDigits C).drop t : Str) =
          (natDigits C).take t ++ '.' :: (natDigits C).drop t := by
        simp
      rw [hshape]
      have htakeall : ∀ c ∈ (natDigits C).take t, isDigitChar c = true :=
        fun c hc => natDigits_all C c (List.mem_of_mem_take hc)
      have hdropall : ∀ c ∈ (natDigits C).drop t, isDigitChar c = true := by
        intro c hc
        apply natDigits_all C c
        rw [← List.take_append_drop t (natDigits C)]
        exact List.mem_append_right _ hc
      have htne : (natDigits C).take t ≠ [] := by
        have h1 : 0 < t := by omega
        have h2 : 0 < (natDigits C).length := List.length_pos.mpr (natDigits_ne_nil C)
        intro hnil
        have := congrArg List.length hnil
        simp only [List.length_take, List.length_nil] at this
        omega
      refine ⟨?_, ?_, by simp [htne]⟩
      · rw [parseMantissa_dot htakeall hdropall (Or.inl htne)]
        have hcoeff : digitsToNat ((natDigits C).take t ++ (natDigits C).drop t) = C := by
          rw [List.take_append_drop, digitsToNat_natDigits]
        have hexp : -(((natDigits C).drop t).length : ℤ) = E := by
          simp only [List.length_drop]
          omega
        rw [hcoeff, hexp]
      · intro c hc
        rcases List.mem_append.mp hc with h1 | h2
        · exact Or.inl (htakeall c h1)
        · rcases List.mem_cons.mp h2 with rfl | h3
          · exact Or.inr rfl
          · exact Or.inl (hdropall c h3)

lemma decimalParse_decFormat_nonneg {C : ℕ} {E : ℤ} (hE : E ≤ 0) :
    decimalParse (decFormat (.num false C E)) = some (.num false C E) := by
  obtain ⟨hm, hclass, hne⟩ := parseMantissa_decFormat_body hE
  rw [decimalParse_of_class hne hclass, hm]
  rfl

lemma decFormat_neg_eq (c : ℕ) (e : ℤ) :
    decFormat (.num true c e) = '-' :: decFormat (.num false c e) := rfl

lemma decimalParse_decFormat_negative {C : ℕ} {E : ℤ} (hE : E ≤ 0) :
    decimalParse (decFormat (.num true C E)) = some (.num true C E) := by
  obtain ⟨hm, hclass, hne⟩ := parseMantissa_decFormat_body (C := C) hE
  rw [decFormat_neg_eq]
  have hstrip : strip ('-' :: decFormat (.num false C E)) =
      '-' :: decFormat (.num false C E) := by
    apply strip_eq_self_of
    intro c hc
    rcases List.mem_cons.mp hc with rfl | h2
    · decide
    · exact not_space_of_digit_or_dot (hclass c h2)
  have hfil : ('-' :: decFormat (.num false C E)).filter (fun c => decide (c ≠ '_')) =
      '-' :: decFormat (.num false C E) := by
    apply filter_eq_self_of
    intro c hc
    simp only [decide_eq_true_eq]
    rcases List.mem_cons.mp hc with rfl | h2
    · decide
    · exact ne_underscore_of_digit_or_dot (hclass c h2)
  unfold decimalParse
  rw [hstrip, hfil]
  have hred : (match ('-' :: decFormat (.num false C E)) with
      | [] => (none : Option PyDec)
      | c2 :: rest2 =>
        if c2 = '+' then parseUnsigned false rest2
        else if c2 = '-' then parseUnsigned true rest2
        else parseUnsigned false (c2 :: rest2)) =
      parseUnsigned true (decFormat (.num false C E)) := by
    have h1 : ('-' : Char) ≠ '+' := by decide
    simp [h1]
  rw [hred, parseUnsigned_of_class hclass true, hm]
  rfl

lemma decimalParse_decFormat_budval {d : PyDec} (h : BudVal d = true) :
    decimalParse (decFormat d) = some d := by
  cases d with
  | num neg c e =>
    have he : e ≤ 0 := by simpa [BudVal] using h
    cases neg
    · exact decimalParse_decFormat_nonneg he
    · exact decimalParse_decFormat_negative he
  | inf s => cases s <;> decide
  | nan => decide

lemma digit_ne_dash {c : Char} (h : isDigitChar c = true) : decide (c ≠ '-') = true := by
  simp only [decide_eq_true_eq]
  intro heq
  subst heq
  exact absurd h (by decide)

lemma digitsToNat_singleton (c : Char) : digitsToNat [c] = charVal c := by
  unfold digitsToNat
  simp [Nat.ofDigits]

lemma digitsToNat_two (a b : Char) : digitsToNat [a, b] = charVal a * 10 + charVal b := by
  have h := digitsToNat_append [a] [b]
  simp only [List.length_singleton, pow_one] at h
  have ha := digitsToNat_singleton a
  have hb := digitsToNat_singleton b
  calc digitsToNat [a, b] = digitsToNat ([a] ++ [b]) := by rfl
    _ = charVal a * 10 + charVal b := by rw [h, ha, hb]

lemma natDigits_len_two {v : ℕ} (h1 : 10 ≤ v) (h2 : v ≤ 99) : (natDigits v).length = 2 := by
  rw [natDigits_length (by omega)]
  have : Nat.log 10 v = 1 := Nat.log_eq_of_pow_le_of_lt_pow (by simpa using h1) (by simpa using by omega : v < 10 ^ 2)
  omega

lemma pad2_all_digits (v : ℕ) : ∀ c ∈ pad2 v, isDigitChar c = true := by
  unfold pad2
  by_cases hv : v < 10
  · rw [if_pos hv]
    intro c hc
    rcases List.mem_cons.mp hc with rfl | hc2
    · decide
    · rcases List.mem_singleton.mp hc2 with rfl
      exact isDigitChar_digitChar hv
  · rw [if_neg hv]
    exact natDigits_all v

lemma digitsToNat_pad2 {v : ℕ} (h : v ≤ 99) : digitsToNat (pad2 v) = v := by
  unfold pad2
  by_cases hv : v < 10
  · rw [if_pos hv]
    have : ([ '0', digitChar v ] : Str) = '0' :: [digitChar v] := rfl
    rw [this, digitsToNat_cons_zero, digitsToNat_singleton, charVal_digitChar hv]
  · rw [if_neg hv]
    exact digitsToNat_natDigits v

lemma pad2_length {v : ℕ} (h : v ≤ 99) : (pad2 v).length = 2 := by
  unfold pad2
  by_cases hv : v < 10
  · rw [if_pos hv]
    rfl
  · rw [if_neg hv]
    exact natDigits_len_two (by omega) h

lemma parse2_pad2 {lo hi v : ℕ} (hlo : lo ≤ v) (hhi : v ≤ hi) (hv : v ≤ 99) :
    parse2 lo hi (pad2 v) = some v := by
  unfold parse2
  have hlen := pad2_length hv
  have hall : (pad2 v).all isDigitChar = true := by
    rw [List.all_eq_true]
    exact pad2_all_digits v
  rw [hlen]
  simp only [hall, Bool.and_true, Bool.or_true, Bool.true_and, if_true]
  rw [digitsToNat_pad2 hv]
  have hcond : (decide (lo ≤ v) && decide (v ≤ hi)) = true := by
    simp [hlo, hhi]
  simp only [hcond, if_true]
  simp

lemma parseY_natDigits {y : ℕ} (h1 : 1000 ≤ y) (h2 : y ≤ 9999) :
    parseY (natDigits y) = some y := by
  unfold parseY
  have hlen : (natDigits y).length = 4 := by
    rw [natDigits_length (by omega)]
    have : Nat.log 10 y = 3 :=
      Nat.log_eq_of_pow_le_of_lt_pow (by simpa using h1) (by simpa using by omega : y < 10 ^ 4)
    omega
  have hall : (natDigits y).all isDigitChar = true := by
    rw [List.all_eq_true]
    exact natDigits_all y
  rw [hlen]
  simp only [hall, Bool.and_true, if_true]
  rw [digitsToNat_natDigits]
  simp

lemma pad2_two {a b : Char} (ha : isDigitChar a = true) (hb : isDigitChar b = true) :
    pad2 (digitsToNat [a, b]) = [a, b] := by
  rw [digitsToNat_two]
  by_cases h0 : a = '0'
  · subst h0
    have hlt : charVal b < 10 := charVal_lt_ten hb
    have hz : charVal '0' = 0 := by decide
    rw [hz]
    unfold pad2
    rw [if_pos (by omega : 0 * 10 + charVal b < 10)]
    simp only [Nat.zero_mul, Nat.zero_add]
    rw [digitChar_charVal hb]
  · have ha1 : 1 ≤ charVal a := charVal_pos ha h0
    have hb10 : charVal b < 10 := charVal_lt_ten hb
    have h10 : ¬ charVal a * 10 + charVal b < 10 := by omega
    unfold pad2
    rw [if_neg h10]
    rw [← digitsToNat_two]
    apply natDigits_digitsToNat
    · intro c hc
      rcases List.mem_cons.mp hc with rfl | hc2
      · exact ha
      · rcases List.mem_singleton.mp hc2 with rfl
        exact hb
    · simp
    · intro c rest heq
      have : c = a := (List.cons.injEq _ _ _ _ ▸ heq).1.symm
      rw [this]
      exact h0

lemma daysInMonth_le_31 (y m : ℕ) : daysInMonth y m ≤ 31 := by
  unfold daysInMonth
  split
  · split <;> omega
  · split <;> omega

lemma validDate_facts {dt : PyDate} (hv : validDate dt = true) :
    1 ≤ dt.year ∧ dt.year ≤ 9999 ∧ 1 ≤ dt.month ∧ dt.month ≤ 12 ∧
      1 ≤ dt.day ∧ dt.day ≤ daysInMonth dt.year dt.month := by
  unfold validDate at hv
  simp only [Bool.and_eq_true, decide_eq_true_eq] at hv
  tauto

lemma dateParse_dateFormat {dt : PyDate} (hv : validDate dt = true) (hy : 1000 ≤ dt.year) :
    dateParse (dateFormat dt) = some dt := by
  obtain ⟨hy1, hy2, hm1, hm2, hd1, hd2⟩ := validDate_facts hv
  obtain ⟨y, m, d⟩ := dt
  simp only at hy1 hy2 hm1 hm2 hd1 hd2 hy
  have hydig : ∀ c ∈ natDigits y, decide (c ≠ '-') = true :=
    fun c hc => digit_ne_dash (natDigits_all y c hc)
  have hmdig : ∀ c ∈ pad2 m, decide (c ≠ '-') = true :=
    fun c hc => digit_ne_dash (pad2_all_digits m c hc)
  have hdashf : decide (('-' : Char) ≠ '-') = false := by decide
  unfold dateParse dateFormat
  simp only [List.cons_append, List.append_assoc]
  rw [takeWhile_middle hydig hdashf, dropWhile_middle hydig hdashf]
  simp only []
  rw [takeWhile_middle hmdig hdashf, dropWhile_middle hmdig hdashf]
  simp only []
  rw [parseY_natDigits hy hy2, parse2_pad2 hm1 hm2 (by omega),
      parse2_pad2 hd1 (le_trans hd2 (daysInMonth_le_31 y m))
        (by have := daysInMonth_le_31 y m; omega : d ≤ 99)]
  simp only []
  have hcond : (decide (1 ≤ y) && decide (d ≤ daysInMonth y m)) = true := by
    simp [hy1, hd2]
  simp [hcond]

set_option maxHeartbeats 1600000 in
lemma isCanonDateStr_parse_format {y1 y2 y3 y4 m1 m2 d1 d2 : Char}
    (h : isCanonDateStr [y1, y2, y3, y4, '-', m1, m2, '-', d1, d2] = true) :
    ∃ dt, dateParse [y1, y2, y3, y4, '-', m1, m2, '-', d1, d2] = some dt ∧
      dateFormat dt = [y1, y2, y3, y4, '-', m1, m2, '-', d1, d2] ∧
      validDate dt = true ∧ 1000 ≤ dt.year := by
  unfold isCanonDateStr at h
  simp only [Bool.and_eq_true, decide_eq_true_eq, List.all_eq_true, List.mem_cons,
    List.mem_singleton, List.not_mem_nil] at h
  obtain ⟨⟨hdigs, hy1z⟩, hrange⟩ := h
  have hy1 : isDigitChar y1 = true := hdigs y1 (by tauto)
  have hy2 : isDigitChar y2 = true := hdigs y2 (by tauto)
  have hy3 : isDigitChar y3 = true := hdigs y3 (by tauto)
  have hy4 : isDigitChar y4 = true := hdigs y4 (by tauto)
  have hm1 : isDigitChar m1 = true := hdigs m1 (by tauto)
  have hm2 : isDigitChar m2 = true := hdigs m2 (by tauto)
  have hd1 : isDigitChar d1 = true := hdigs d1 (by tauto)
  have hd2 : isDigitChar d2 = true := hdigs d2 (by tauto)
  obtain ⟨⟨⟨hm1', hm2'⟩, hd1'⟩, hd2'⟩ := hrange
  set y := digitsToNat [y1, y2, y3, y4] with hy
  set m := digitsToNat [m1, m2] with hm
  set d := digitsToNat [d1, d2] with hd
  have hall4 : ∀ c ∈ ([y1, y2, y3, y4] : Str), isDigitChar c = true := by
    intro c hc
    simp only [List.mem_cons, List.mem_singleton, List.not_mem_nil, or_false] at hc
    rcases hc with rfl | rfl | rfl | rfl <;> assumption
  have hallm : ∀ c ∈ ([m1, m2] : Str), isDigitChar c = true := by
    intro c hc
    simp only [List.mem_cons, List.mem_singleton, List.not_mem_nil, or_false] at hc
    rcases hc with rfl | rfl <;> assumption
  have halld : ∀ c ∈ ([d1, d2] : Str), isDigitChar c = true := by
    intro c hc
    simp only [List.mem_cons, List.mem_singleton, List.not_mem_nil, or_false] at hc
    rcases hc with rfl | rfl <;> assumption
  have hy1000 : 1000 ≤ y := by
    have h1 : 1 ≤ charVal y1 := charVal_pos hy1 hy1z
    rw [hy]
    have hform : ([y1, y2, y3, y4] : Str) = [y1] ++ [y2, y3, y4] := rfl
    rw [hform, digitsToNat_append, digitsToNat_singleton]
    simp only [List.length_cons, List.length_nil]
    norm_num
    omega
  have hy9999 : y ≤ 9999 := by
    have hlt4 : digitsToNat [y1, y2, y3, y4] < 10 ^ ([y1, y2, y3, y4] : Str).length :=
      digitsToNat_lt hall4
    rw [hy]
    simp only [List.length_cons, List.length_nil] at hlt4
    omega
  have hyall : ∀ c ∈ ([y1, y2, y3, y4] : Str), decide (c ≠ '-') = true :=
    fun c hc => digit_ne_dash (hall4 c hc)
  have hmall : ∀ c ∈ ([m1, m2] : Str), decide (c ≠ '-') = true :=
    fun c hc => digit_ne_dash (hallm c hc)
  have hdashf : decide (('-' : Char) ≠ '-') = false := by decide
  refine ⟨⟨y, m, d⟩, ?_, ?_, ?_, hy1000⟩
  · unfold dateParse
    have hshape : ([y1, y2, y3, y4, '-', m1, m2, '-', d1, d2] : Str) =
        [y1, y2, y3, y4] ++ '-' :: [m1, m2, '-', d1, d2] := rfl
    rw [hshape, takeWhile_middle hyall hdashf, dropWhile_middle hyall hdashf]
    simp only []
    have hshape2 : ([m1, m2, '-', d1, d2] : Str) = [m1, m2] ++ '-' :: [d1, d2] := rfl
    rw [hshape2, takeWhile_middle hmall hdashf, dropWhile_middle hmall hdashf]
    simp only []
    have hpY : parseY [y1, y2, y3, y4] = some y := by
      unfold parseY
      have hcond : (decide (([y1, y2, y3, y4] : Str).length = 4) &&
          ([y1, y2, y3, y4] : Str).all isDigitChar) = true := by
        rw [List.all_eq_true.mpr hall4]
        rfl
      simp only [hcond, if_true, hy]
    have hpM : parse2 1 12 [m1, m2] = some m := by
      unfold parse2
      have hcond : ((decide (([m1, m2] : Str).length = 1) ||
          decide (([m1, m2] : Str).length = 2)) && ([m1, m2] : Str).all isDigitChar) = true := by
        rw [List.all_eq_true.mpr hallm]
        rfl
      simp only [hcond, if_true, ← hm]
      have hcond2 : (decide (1 ≤ m) && decide (m ≤ 12)) = true := by
        simp only [Bool.and_eq_true, decide_eq_true_eq]
        exact ⟨hm1', hm2'⟩
      simp only [hcond2, if_true]
    have hpD : parse2 1 31 [d1, d2] = some d := by
      unfold parse2
      have hcond : ((decide (([d1, d2] : Str).length = 1) ||
          decide (([d1, d2] : Str).length = 2)) && ([d1, d2] : Str).all isDigitChar) = true := by
        rw [List.all_eq_true.mpr halld]
        rfl
      simp only [hcond, if_true, ← hd]
      have hd31 : d ≤ 31 := le_trans hd2' (daysInMonth_le_31 y m)
      have hcond2 : (decide (1 ≤ d) && decide (d ≤ 31)) = true := by
        simp only [Bool.and_eq_true, decide_eq_true_eq]
        exact ⟨hd1', hd31⟩
      simp only [hcond2, if_true]
    rw [hpY, hpM, hpD]
    simp only []
    have hcond : (decide (1 ≤ y) && decide (d ≤ daysInMonth y m)) = true := by
      simp only [Bool.and_eq_true, decide_eq_true_eq]
      exact ⟨by omega, hd2'⟩
    simp only [hcond, if_true]
  · unfold dateFormat
    simp only []
    have hny : natDigits y = [y1, y2, y3, y4] := by
      rw [hy]
      apply natDigits_digitsToNat hall4 (by simp)
      intro c rest heq
      have : c = y1 := (List.cons.injEq _ _ _ _ ▸ heq).1.symm
      rw [this]
      exact hy1z
    have hnm : pad2 m = [m1, m2] := by
      rw [hm]
      exact pad2_two hm1 hm2
    have hnd : pad2 d = [d1, d2] := by
      rw [hd]
      exact pad2_two hd1 hd2
    rw [hny, hnm, hnd]
    rfl
  · unfold validDate
    simp only [Bool.and_eq_true, decide_eq_true_eq]
    exact ⟨⟨⟨⟨⟨by omega, hy9999⟩, hm1'⟩, hm2'⟩, hd1'⟩, hd2'⟩

lemma dateFormat_strip (d : PyDate) : strip (dateFormat d) = dateFormat d := by
  apply strip_eq_self_of
  intro c hc
  unfold dateFormat at hc
  rcases List.mem_append.mp hc with h12 | h3
  · rcases List.mem_append.mp h12 with h1 | h2
    · exact not_space_of_digit_or_dot (Or.inl (natDigits_all _ c h1))
    · rcases List.mem_cons.mp h2 with rfl | h2b
      · decide
      · exact not_space_of_digit_or_dot (Or.inl (pad2_all_digits _ c h2b))
  · rcases List.mem_cons.mp h3 with rfl | h3b
    · decide
    · exact not_space_of_digit_or_dot (Or.inl (pad2_all_digits _ c h3b))

lemma dateFormat_ne_nil (d : PyDate) : dateFormat d ≠ [] := by
  unfold dateFormat
  intro hnil
  exact natDigits_ne_nil d.year (List.append_eq_nil.mp (List.append_eq_nil.mp hnil).1).1

lemma from_row_to_row {e : Expense} (h : ValidExp e = true) :
    Expense.from_row e.to_row = .ok e := by
  obtain ⟨dt, cat, amt, desc⟩ := e
  unfold ValidExp at h
  simp only [Bool.and_eq_true, decide_eq_true_eq] at h
  obtain ⟨⟨⟨⟨⟨⟨hvd, hy⟩, hcne⟩, hcst⟩, hdne⟩, hdst⟩, hamt⟩ := h
  cases amt with
  | inf s => exact absurd hamt (by simp)
  | nan => exact absurd hamt (by simp)
  | num neg c ex =>
    cases neg with
    | true => exact absurd hamt (by simp)
    | false =>
      simp only [Bool.and_eq_true, decide_eq_true_eq] at hamt
      obtain ⟨hc, hex⟩ := hamt
      have hg1 : rowGet (Expense.to_row ⟨dt, cat, .num false c ex, desc⟩) "date".data =
          some (dateFormat dt) := rfl
      have hg2 : rowGet (Expense.to_row ⟨dt, cat, .num false c ex, desc⟩) "category".data =
          some cat := rfl
      have hg3 : rowGet (Expense.to_row ⟨dt, cat, .num false c ex, desc⟩) "amount".data =
          some (decFormat (.num false c ex)) := rfl
      have hg4 : rowGet (Expense.to_row ⟨dt, cat, .num false c ex, desc⟩) "description".data =
          some desc := rfl
      have hrne : Expense.to_row ⟨dt, cat, .num false c ex, desc⟩ ≠ [] := by
        unfold Expense.to_row
        simp
      have hdfne : dateFormat dt ≠ [] := dateFormat_ne_nil dt
      have hdparse : dateParse (strip (dateFormat dt)) = some dt := by
        rw [dateFormat_strip]
        exact dateParse_dateFormat hvd hy
      obtain ⟨hm, hclass, hfne⟩ := parseMantissa_decFormat_body (C := c) (E := ex) hex
      have hstripa : strip (decFormat (.num false c ex)) = decFormat (.num false c ex) :=
        strip_eq_self_of (fun ch hch => not_space_of_digit_or_dot (hclass ch hch))
      have haparse : decimalParse (strip (decFormat (.num false c ex))) =
          some (.num false c ex) := by
        rw [hstripa]
        exact decimalParse_decFormat_nonneg hex
      have hle : decLeZeroE (.num false c ex) = .ok false := by
        unfold decLeZeroE
        simp [hc]
      have hafne : decFormat (.num false c ex) ≠ [] := hfne
      unfold Expense.from_row
      rw [if_neg hrne]
      simp only [hg1, hg2, hg3, hg4, if_neg hdfne, hdparse, if_neg hcne, if_neg hdne,
        if_neg hafne, haparse, hle, hcst, hdst]

lemma q10_pow_toNat {e F : ℤ} (h : F ≤ e) :
    ((10 : ℚ) ^ (e - F).toNat) * (10 : ℚ) ^ F = (10 : ℚ) ^ e := by
  rw [← zpow_natCast (10 : ℚ) (e - F).toNat, Int.toNat_of_nonneg (by omega : (0:ℤ) ≤ e - F),
      ← zpow_add₀ (by norm_num : (10 : ℚ) ≠ 0)]
  congr 1
  omega

lemma pairVal_foldStepExact (a x : ℕ × ℤ) :
    pairVal (foldStepExact a x) = pairVal a + pairVal x := by
  unfold pairVal foldStepExact
  simp only
  push_cast
  rw [add_mul]
  rw [mul_assoc, mul_assoc, q10_pow_toNat (min_le_left a.2 x.2),
      q10_pow_toNat (min_le_right a.2 x.2)]

lemma lt_pow_of_ndigits_le {c n : ℕ} (h : ndigits c ≤ n) : c < 10 ^ n :=
  lt_of_lt_of_le (Nat.lt_base_pow_length_digits (by norm_num))
    (Nat.pow_le_pow_right (by norm_num) (by rw [← ndigits_eq]; exact h))

lemma ctxRound_id {c : ℕ} {E : ℤ} (hd : ndigits c ≤ prec) (hlo : Etiny ≤ E)
    (hhi : E + (ndigits c : ℤ) - 1 ≤ Emax) :
    ctxRound c E = .ok (c, E) := by
  unfold ctxRound roundToExp
  simp only [if_pos hd, max_eq_left hlo, sub_self, Int.toNat_zero, pow_zero, Nat.div_one,
    Nat.mod_one, Nat.mul_zero]
  have hcond : (decide ((1 : ℕ) < 0) || (decide ((0 : ℕ) = 1) && decide (c % 2 = 1)))
      = false := by simp
  rw [hcond]
  simp only [Bool.false_eq_true, if_false]
  rw [if_neg (Nat.ne_of_lt (lt_pow_of_ndigits_le hd)), if_neg (not_lt.mpr hhi)]

lemma decAddE_exact (C c : ℕ) (E e : ℤ)
    (h : stepExactOk (foldStepExact (C, E) (c, e)) = true) :
    decAddE (.num false C E) (.num false c e) =
      .ok (.num false (foldStepExact (C, E) (c, e)).1 (foldStepExact (C, E) (c, e)).2) := by
  unfold stepExactOk foldStepExact at h
  simp only [Bool.and_eq_true, decide_eq_true_eq] at h
  obtain ⟨⟨⟨hd, hlo⟩, hhiE⟩, hadj⟩ := h
  unfold foldStepExact
  simp only
  unfold decAddE
  simp only [intOf, Bool.false_eq_true, if_false, Bool.false_and]
  have hm : (C : ℤ) * 10 ^ (E - min E e).toNat + (c : ℤ) * 10 ^ (e - min E e).toNat =
      ((C * 10 ^ (E - min E e).toNat + c * 10 ^ (e - min E e).toNat : ℕ) : ℤ) := by
    push_cast
    ring
  rw [hm]
  set S : ℕ := C * 10 ^ (E - min E e).toNat + c * 10 ^ (e - min E e).toNat with hS
  by_cases hz : S = 0
  · have hz' : ((S : ℕ) : ℤ) = 0 := by exact_mod_cast hz
    rw [if_pos hz', hz, min_eq_left hhiE, max_eq_left hlo]
  · have hz' : ((S : ℕ) : ℤ) ≠ 0 := by exact_mod_cast hz
    have habs : ((S : ℕ) : ℤ).natAbs = S := Int.natAbs_ofNat _
    have hneg : decide (((S : ℕ) : ℤ) < 0) = false := decide_eq_false (by omega)
    rw [if_neg hz']
    simp only [habs, ctxRound_id hd hlo hadj, hneg]

lemma pairVal_foldl (P : List (ℕ × ℤ)) (acc : ℕ × ℤ) :
    pairVal (P.foldl foldStepExact acc) = pairVal acc + (P.map pairVal).sum := by
  induction P generalizing acc with
  | nil => simp
  | cons x xs ih =>
    simp only [List.foldl_cons, List.map_cons, List.sum_cons]
    rw [ih, pairVal_foldStepExact]
    ring

lemma foldlM_decAddE_exact (L : List Expense) (P : List (ℕ × ℤ)) (acc : ℕ × ℤ)
    (hP : L.mapM (fun x => finPos x.amount) = some P)
    (hok : exactOk acc P = true) :
    L.foldlM (fun a x => decAddE a x.amount) (.num false acc.1 acc.2) =
      .ok (.num false (P.foldl foldStepExact acc).1 (P.foldl foldStepExact acc).2) := by
  induction L generalizing P acc with
  | nil =>
    simp only [List.mapM_nil, Option.pure_def, Option.some.injEq] at hP
    subst hP
    rfl
  | cons x xs ih =>
    rw [List.mapM_cons] at hP
    cases hx : finPos x.amount with
    | none =>
      rw [hx] at hP
      simp at hP
    | some p =>
      rw [hx] at hP
      cases hxs : xs.mapM (fun x => finPos x.amount) with
      | none =>
        rw [hxs] at hP
        simp at hP
      | some ps =>
        rw [hxs] at hP
        simp only [Option.pure_def, Option.bind_eq_bind, Option.some_bind,
          Option.some.injEq] at hP
        subst hP
        unfold exactOk at hok
        simp only [Bool.and_eq_true, decide_eq_true_eq] at hok
        obtain ⟨hfit, hrest⟩ := hok
        have hxamt : x.amount = .num false p.1 p.2 := by
          cases hamt : x.amount <;> rw [hamt] at hx <;> unfold finPos at hx
          case num neg cc ee =>
            cases neg
            · simp only [Option.some.injEq] at hx
              rw [← hx]
            · simp at hx
          case inf s => simp at hx
          case nan => simp at hx
        rw [List.foldlM_cons]
        rw [hxamt]
        have hstep := decAddE_exact acc.1 p.1 acc.2 p.2 (by
          have : (acc.1, acc.2) = acc := rfl
          rw [this]
          exact hfit)
        have haccp : (acc.1, acc.2) = acc := rfl
        rw [haccp] at hstep
        rw [hstep]
        rw [List.foldl_cons]
        exact ih ps (foldStepExact acc p) hxs hrest

lemma qval_sign_abs (m F : ℤ) :
    qval (.num (decide (m < 0)) m.natAbs F) = (m : ℚ) * (10 : ℚ) ^ F := by
  rcases lt_or_le m 0 with hm | hm
  · rw [decide_eq_true hm]
    show (if true = true then (-1 : ℚ) else 1) * (m.natAbs : ℚ) * 10 ^ F = (m : ℚ) * 10 ^ F
    rw [if_pos rfl, Int.cast_natAbs, abs_of_neg hm]
    push_cast
    ring
  · rw [decide_eq_false (not_lt.mpr hm)]
    show (if false = true then (-1 : ℚ) else 1) * (m.natAbs : ℚ) * 10 ^ F = (m : ℚ) * 10 ^ F
    rw [if_neg (by simp), Int.cast_natAbs, abs_of_nonneg hm]
    push_cast
    ring

lemma decGeZeroE_sign (m F : ℤ) :
    decGeZeroE (.num (decide (m < 0)) m.natAbs F) = .ok (decide (0 ≤ m)) := by
  rcases lt_or_le m 0 with hm | hm
  · rw [decide_eq_true hm]
    show Except.ok (decide (m.natAbs = 0) || !true) = .ok (decide (0 ≤ m))
    have h1 : decide (m.natAbs = 0) = false := decide_eq_false (by omega)
    have h2 : decide (0 ≤ m) = false := decide_eq_false (by omega)
    rw [h1, h2]
    rfl
  · rw [decide_eq_false (not_lt.mpr hm)]
    show Except.ok (decide (m.natAbs = 0) || !false) = .ok (decide (0 ≤ m))
    rw [decide_eq_true hm]
    simp

lemma decSubE_exact (B T : ℕ) (Eb Et : ℤ) (hfit : subFit (B, Eb) (T, Et) = true) :
    decSubE (.num false B Eb) (.num false T Et) =
      .ok (.num
        (decide ((B : ℤ) * 10 ^ (Eb - min Eb Et).toNat - (T : ℤ) * 10 ^ (Et - min Eb Et).toNat < 0))
        ((B : ℤ) * 10 ^ (Eb - min Eb Et).toNat - (T : ℤ) * 10 ^ (Et - min Eb Et).toNat).natAbs
        (min Eb Et)) := by
  unfold subFit stepExactOk at hfit
  simp only [Bool.and_eq_true, decide_eq_true_eq] at hfit
  obtain ⟨⟨⟨hd, hlo⟩, hhiE⟩, hadj⟩ := hfit
  unfold decSubE decNeg decAddE
  simp only [intOf, Bool.false_eq_true, Bool.not_false, if_false, eq_self_iff_true, if_true,
    Bool.false_and]
  set m : ℤ := (B : ℤ) * 10 ^ (Eb - min Eb Et).toNat - (T : ℤ) * 10 ^ (Et - min Eb Et).toNat
    with hm
  have hexpr : (B : ℤ) * 10 ^ (Eb - min Eb Et).toNat + -(T : ℤ) * 10 ^ (Et - min Eb Et).toNat
      = m := by
    rw [hm]
    ring
  rw [hexpr]
  by_cases hz : m = 0
  · rw [if_pos hz, hz, min_eq_left hhiE, max_eq_left hlo]
    simp
  · rw [if_neg hz]
    simp only [ctxRound_id hd hlo hadj]

lemma list_expenses_eq_filter (t : ExpenseTracker) (mk cat : Option Str)
    (hmk : mk ≠ some []) (hcat : cat ≠ some []) :
    (t.list_expenses mk cat).1 = t.expenses.filter (fun e =>
      (match mk with | none => true | some k => decide (month_key e.date = k)) &&
      (match cat with | none => true | some c => decide (lowerStr e.category = lowerStr c))) := by
  unfold ExpenseTracker.list_expenses
  cases mk with
  | none =>
    cases cat with
    | none => simp
    | some c =>
      have hc : c ≠ [] := fun h => hcat (by rw [h])
      simp only [if_neg hc]
      simp
  | some k =>
    have hk : k ≠ [] := fun h => hmk (by rw [h])
    cases cat with
    | none =>
      simp only [if_neg hk]
      simp
    | some c =>
      have hc : c ≠ [] := fun h => hcat (by rw [h])
      simp only [if_neg hk, if_neg hc, List.filter_filter]
      apply List.filter_congr
      intro e he
      exact Bool.and_comm _ _

/-- C10: each of the four query operations `list_expenses`, `total_expenses`,
`get_budget` and `budget_status` leaves the entire engine state (the expense
sequence, the budget map, and both files) unchanged. -/
theorem queries_leave_state_unchanged (t : ExpenseTracker) (mk cat : Option Str) (k k2 : Str) :
    (t.list_expenses mk cat).2 = t ∧ (t.total_expenses mk).2 = t ∧
    (t.get_budget k).2 = t ∧ (t.budget_status k2).2 = t :=
  ⟨rfl, rfl, rfl, rfl⟩

/-- C9: `add_expense` performs no validation at all: for every date, category, amount
and description — including non-positive or NaN amounts and whitespace-only texts —
it succeeds, appends to the end of the in-memory sequence an expense with trimmed
category and description and unchanged date and amount, returns that entity, and
leaves both files (the disk) untouched. -/
theorem add_expense_spec (t : ExpenseTracker) (d : PyDate) (category : Str)
    (amount : PyDec) (description : Str) :
    t.add_expense d category amount description =
      ({ t with expenses := t.expenses ++ [⟨d, strip category, amount, strip description⟩] },
       ⟨d, strip category, amount, strip description⟩) ∧
    (t.add_expense d category amount description).1.budgets = t.budgets ∧
    (t.add_expense d category amount description).1.expFile = t.expFile ∧
    (t.add_expense d category amount description).1.budFile = t.budFile :=
  ⟨rfl, rfl, rfl, rfl⟩

/-- C4: when the budget file as a whole fails to parse — either the document itself
is malformed, or any entry value is rejected by the `Decimal` conversion — `load`
discards the entire budget map (regardless of its previous contents), leaves it
empty, reports zero budgets, and raises nothing (the function is total); the
fallback is all-or-nothing. -/
theorem load_budgets_all_or_nothing (t : ExpenseTracker) :
    (t.budFile = .malformed → t.load_budgets = ({ t with budgets := [] }, 0)) ∧
    (∀ kvs, t.budFile = .parsed kvs →
      kvs.mapM (fun kv => (decimalParse kv.2).map (fun d => (kv.1, d))) = none →
      t.load_budgets = ({ t with budgets := [] }, 0)) := by
  constructor
  · intro h
    unfold ExpenseTracker.load_budgets
    rw [h]
  · intro kvs h hbad
    unfold ExpenseTracker.load_budgets
    rw [h]
    simp only []
    rw [hbad]

/-- Witness for C4: a tracker holding a budget in memory and a malformed budget file
on disk loads zero budgets and ends with an empty map. -/
theorem load_budgets_all_or_nothing_witness :
    ExpenseTracker.load_budgets
        ⟨[], [("2025-01".data, .num false 2000 0)], none, .malformed⟩ =
      (⟨[], [], none, .malformed⟩, 0) :=
  (load_budgets_all_or_nothing
    ⟨[], [("2025-01".data, .num false 2000 0)], none, .malformed⟩).1 rfl

/-- Counterexample for C7 as stated: supplying an *empty-string* category filter is
treated by the source's Python truthiness test as "no filter", so the result
contains an expense whose lowercased category does not equal the lowercased filter
text — the result is not the subsequence satisfying the supplied filter. -/
theorem list_expenses_claim_counterexample :
    (ExpenseTracker.list_expenses
        ⟨[⟨⟨2025, 1, 15⟩, "Food".data, .num false 5 0, "x".data⟩], [], none, .absent⟩
        none (some [])).1 =
      [⟨⟨2025, 1, 15⟩, "Food".data, .num false 5 0, "x".data⟩] ∧
    lowerStr "Food".data ≠ lowerStr [] := by
  constructor
  · rfl
  · decide

/-- C7 (amended): for every combination of filters in which a supplied filter text is
nonempty, `list_expenses` returns exactly the expenses satisfying all supplied
filters, with AND semantics — the month filter comparing the derived month key for
equality, the category filter comparing lowercased texts — as the order-preserving
`filter` of the stored sequence; omitting both filters returns everything, and the
stored state is未 not mutated.  (A supplied empty-string filter is treated by the
source as omitted; the counterexample records this divergence from the claim.) -/
theorem list_expenses_amended (t : ExpenseTracker) (mk cat : Option Str)
    (hmk : mk ≠ some []) (hcat : cat ≠ some []) :
    (t.list_expenses mk cat).1 = t.expenses.filter (fun e =>
      (match mk with | none => true | some k => decide (month_key e.date = k)) &&
      (match cat with | none => true | some c => decide (lowerStr e.category = lowerStr c))) ∧
    (t.list_expenses mk cat).2 = t :=
  ⟨list_expenses_eq_filter t mk cat hmk hcat, rfl⟩

/-- Witness for C7: with a month filter `2025-01` and a category filter `food`, the
engine keeps exactly the matching expense, in order. -/
theorem list_expenses_amended_witness :
    (ExpenseTracker.list_expenses
        ⟨[⟨⟨2025, 1, 15⟩, "Food".data, .num false 5 0, "x".data⟩,
          ⟨⟨2025, 2, 3⟩, "Food".data, .num false 7 0, "y".data⟩,
          ⟨⟨2025, 1, 20⟩, "Rent".data, .num false 9 0, "z".data⟩], [], none, .absent⟩
        (some "2025-01".data) (some "food".data)).1 =
      [⟨⟨2025, 1, 15⟩, "Food".data, .num false 5 0, "x".data⟩] := by
  have h := (list_expenses_amended
    ⟨[⟨⟨2025, 1, 15⟩, "Food".data, .num false 5 0, "x".data⟩,
      ⟨⟨2025, 2, 3⟩, "Food".data, .num false 7 0, "y".data⟩,
      ⟨⟨2025, 1, 20⟩, "Rent".data, .num false 9 0, "z".data⟩], [], none, .absent⟩
    (some "2025-01".data) (some "food".data) (by decide) (by decide)).1
  rw [h]
  decide

lemma decLeZeroE_not_overflow (a : PyDec) : decLeZeroE a ≠ .error .overflow := by
  cases a <;> simp [decLeZeroE]

lemma from_row_not_overflow (r : Row) : Expense.from_row r ≠ .error .overflow := by
  unfold Expense.from_row
  intro h
  repeat' split at h
  all_goals try exact PyErr.noConfusion (Except.error.inj h)
  all_goals try exact Except.noConfusion h
  have herr := Except.error.inj h
  subst herr
  simp_all only [decLeZeroE_not_overflow]

lemma load_rows_eq (rows : List Row)
    (h : ∀ r ∈ rows, Expense.from_row r ≠ .error .invalidOperation) :
    load_rows rows = .ok (rows.filterMap (fun r => (Expense.from_row r).toOption),
      (rows.filterMap (fun r => (Expense.from_row r).toOption)).length) := by
  induction rows with
  | nil => rfl
  | cons r rs ih =>
    have hr := h r (List.mem_cons_self r rs)
    have hrs := ih (fun x hx => h x (List.mem_cons_of_mem r hx))
    unfold load_rows
    cases hfr : Expense.from_row r with
    | ok e =>
      rw [hrs]
      simp [List.filterMap_cons, hfr, Except.toOption]
    | error err =>
      cases err with
      | valueError msg =>
        rw [hrs]
        simp [List.filterMap_cons, hfr, Except.toOption]
      | invalidOperation => exact absurd hfr hr
      | overflow => exact absurd hfr (from_row_not_overflow r)

/-- Counterexample for C3 as stated: a row whose amount text parses to decimal NaN is
not silently skipped — the `amt <= 0` comparison raises `decimal.InvalidOperation`,
which is not a `ValueError` and therefore escapes `_load_expenses` and surfaces to
the caller of `load`. -/
theorem load_expenses_claim_counterexample :
    ExpenseTracker.load_expenses
        ⟨[], [], some [[("date".data, "2025-01-15".data), ("category".data, "Food".data),
          ("amount".data, "nan".data), ("description".data, "x".data)]], .absent⟩ =
      .error .invalidOperation := by
  decide

/-- C3 (amended): for every expense-file content in which no row has an amount
parsing to decimal NaN, `load_expenses` parses each row through `Expense.from_row`,
appends exactly the rows that validate, in file order, silently skips every row that
fails with a `ValueError`, and reports as its count exactly the number of rows
loaded.  (A NaN-amount row instead raises an uncaught error; see the
counterexample.) -/
theorem load_expenses_amended (t : ExpenseTracker) (rows : List Row)
    (hf : t.expFile = some rows)
    (h : ∀ r ∈ rows, Expense.from_row r ≠ .error .invalidOperation) :
    t.load_expenses = .ok
      ({ t with expenses := t.expenses ++
          rows.filterMap (fun r => (Expense.from_row r).toOption) },
       (rows.filterMap (fun r => (Expense.from_row r).toOption)).length) := by
  unfold ExpenseTracker.load_expenses
  rw [hf]
  simp only []
  rw [load_rows_eq rows h]

/-- Witness for C3: the specification's own example — three valid rows and two
malformed rows (blank category, non-numeric amount) load exactly the three valid
expenses and report count 3. -/
theorem load_expenses_amended_witness :
    ExpenseTracker.load_expenses
        ⟨[], [], some
          [[("date".data, "2025-01-15".data), ("category".data, "Food".data),
            ("amount".data, "250.00".data), ("description".data, "Lunch".data)],
           [("date".data, "2025-01-16".data), ("category".data, "".data),
            ("amount".data, "10".data), ("description".data, "bad".data)],
           [("date".data, "2025-01-17".data), ("category".data, "Rent".data),
            ("amount".data, "900".data), ("description".data, "Rent".data)],
           [("date".data, "2025-01-18".data), ("category".data, "Food".data),
            ("amount".data, "abc".data), ("description".data, "bad2".data)],
           [("date".data, "2025-01-19".data), ("category".data, "Travel".data),
            ("amount".data, "42.50".data), ("description".data, "Bus".data)]], .absent⟩ =
      .ok (⟨[⟨⟨2025, 1, 15⟩, "Food".data, .num false 25000 (-2), "Lunch".data⟩,
             ⟨⟨2025, 1, 17⟩, "Rent".data, .num false 900 0, "Rent".data⟩,
             ⟨⟨2025, 1, 19⟩, "Travel".data, .num false 4250 (-2), "Bus".data⟩],
            [], some
            [[("date".data, "2025-01-15".data), ("category".data, "Food".data),
              ("amount".data, "250.00".data), ("description".data, "Lunch".data)],
             [("date".data, "2025-01-16".data), ("category".data, "".data),
              ("amount".data, "10".data), ("description".data, "bad".data)],
             [("date".data, "2025-01-17".data), ("category".data, "Rent".data),
              ("amount".data, "900".data), ("description".data, "Rent".data)],
             [("date".data, "2025-01-18".data), ("category".data, "Food".data),
              ("amount".data, "abc".data), ("description".data, "bad2".data)],
             [("date".data, "2025-01-19".data), ("category".data, "Travel".data),
              ("amount".data, "42.50".data), ("description".data, "Bus".data)]], .absent⟩,
           3) := by
  rw [load_expenses_amended _ _ rfl (by decide)]
  decide

lemma qval_num_false (c : ℕ) (e : ℤ) : qval (.num false c e) = pairVal (c, e) := by
  unfold qval pairVal
  simp

lemma decAddE_zero_left {c : ℕ} {e : ℤ} (he : e ≤ 0) (hc : (c : ℤ) ≠ 0) {p : ℕ × ℤ}
    (hr : ctxRound c e = .ok p) :
    decAddE (.num false 0 0) (.num false c e) = .ok (.num false p.1 p.2) := by
  unfold decAddE
  simp only [intOf, Bool.false_eq_true, if_false, Nat.cast_zero, min_eq_right he, zero_mul,
    zero_add, sub_self, Int.toNat_zero, pow_zero, mul_one, Bool.false_and]
  rw [if_neg hc]
  simp only [Int.natAbs_ofNat, hr, decide_eq_false (not_lt.mpr (Int.natCast_nonneg c))]

/-- Counterexample for C8 as stated: decimal arithmetic in the source runs under the
full default context, not exactly.  (i) 28 significant digits: the total of the
single expense `10^28 + 1` is the rounded `1E+28`, not the exact sum.  (ii) The
exponent window: the total of the single expense `1E-1000050` underflows silently to
`0E-1000026` — zero, not the exact sum (and a partial sum whose adjusted exponent
exceeds `Emax = 999999` raises the trapped `decimal.Overflow`). -/
theorem total_expenses_claim_counterexample :
    ((ExpenseTracker.total_expenses
        ⟨[⟨⟨2025, 1, 15⟩, "Food".data, .num false (10 ^ 28 + 1) 0, "big".data⟩],
         [], none, .absent⟩
        (some "2025-01".data)).1 = .ok (.num false (10 ^ 27) 1) ∧
     qval (.num false (10 ^ 27) 1) ≠ qval (.num false (10 ^ 28 + 1) 0)) ∧
    ((ExpenseTracker.total_expenses
        ⟨[⟨⟨2025, 1, 15⟩, "Food".data, .num false 1 (-1000050), "tiny".data⟩],
         [], none, .absent⟩
        (some "2025-01".data)).1 = .ok (.num false 0 (-1000026)) ∧
     qval (.num false 0 (-1000026)) ≠ qval (.num false 1 (-1000050))) := by
  refine ⟨⟨by decide, ?_⟩, ?_, ?_⟩
  · unfold qval
    simp only [Bool.false_eq_true, if_false, one_mul, zpow_one, zpow_zero, mul_one]
    push_cast
    norm_num
  · have hr : ctxRound 1 (-1000050) = .ok (0, -1000026) := by decide
    have h1 : decAddE (.num false 0 0) (.num false 1 (-1000050)) =
        .ok (.num false 0 (-1000026)) :=
      decAddE_zero_left (by norm_num) (by norm_num) hr
    have hlist : (ExpenseTracker.list_expenses
        ⟨[⟨⟨2025, 1, 15⟩, "Food".data, .num false 1 (-1000050), "tiny".data⟩],
         [], none, .absent⟩ (some "2025-01".data) none).1 =
        [⟨⟨2025, 1, 15⟩, "Food".data, .num false 1 (-1000050), "tiny".data⟩] := by decide
    unfold ExpenseTracker.total_expenses
    simp only [hlist, List.foldlM_cons, List.foldlM_nil, h1]
    rfl
  · unfold qval
    simp only [Bool.false_eq_true, if_false, one_mul, Nat.cast_zero, zero_mul, Nat.cast_one]
    intro hq
    exact zpow_ne_zero (-1000050) (by norm_num : (10 : ℚ) ≠ 0) hq.symm

/-- C8 (amended): for every stored sequence and every month key (a nonempty text; an
empty one is treated by the source as no filter), the total is the decimal context
sum of the amounts of the expenses whose derived month key matches (all of them when
the filter is omitted), starting from `Decimal("0")`; whenever every partial sum is
representable under the default context — at most 28 significant digits and exponent
within the `[Etiny, Emax]` window — the result is exact: its rational value is the
sum of the amounts' values, and an empty selection yields exactly `Decimal("0")`.
(Outside that window the context intervenes: a partial sum needing more than 28
digits is rounded half-even, a tiny one underflows silently toward `0E-1000026`, and
a too-large one raises the trapped `decimal.Overflow`.)  Never binary floating
point. -/
theorem total_expenses_amended (t : ExpenseTracker) (mk : Option Str) (hmk : mk ≠ some [])
    (P : List (ℕ × ℤ))
    (hP : ((t.list_expenses mk none).1).mapM (fun x => finPos x.amount) = some P)
    (hok : exactOk (0, 0) P = true) :
    (t.total_expenses mk).1 = .ok (.num false (listSumExact P).1 (listSumExact P).2) ∧
    qval (.num false (listSumExact P).1 (listSumExact P).2) = (P.map pairVal).sum ∧
    (t.list_expenses mk none).1 = t.expenses.filter (fun e =>
      match mk with | none => true | some k => decide (month_key e.date = k)) ∧
    ((t.list_expenses mk none).1 = [] →
      (t.total_expenses mk).1 = .ok (.num false 0 0)) := by
  have htot : (t.total_expenses mk).1 =
      ((t.list_expenses mk none).1).foldlM (fun a x => decAddE a x.amount)
        (.num false 0 0) := rfl
  refine ⟨?_, ?_, ?_, ?_⟩
  · rw [htot]
    exact foldlM_decAddE_exact _ P (0, 0) hP hok
  · rw [qval_num_false]
    have hp : ((0, 0) : ℕ × ℤ).1 = 0 := rfl
    have := pairVal_foldl P (0, 0)
    unfold listSumExact
    rw [this]
    have hz : pairVal (0, 0) = 0 := by
      unfold pairVal
      simp
    rw [hz, zero_add]
  · have := list_expenses_eq_filter t mk none hmk (by simp)
    rw [this]
    apply List.filter_congr
    intro e he
    cases mk <;> simp
  · intro hempty
    rw [htot, hempty]
    rfl

/-- Witness for C8: two expenses of `250.00` and `99.99` in January 2025 and one in
February; the January total is exactly `349.99`. -/
theorem total_expenses_amended_witness :
    (ExpenseTracker.total_expenses
        ⟨[⟨⟨2025, 1, 15⟩, "Food".data, .num false 25000 (-2), "Lunch".data⟩,
          ⟨⟨2025, 1, 20⟩, "Rent".data, .num false 9999 (-2), "y".data⟩,
          ⟨⟨2025, 2, 1⟩, "Food".data, .num false 7 0, "z".data⟩],
         [], none, .absent⟩
        (some "2025-01".data)).1 = .ok (.num false 34999 (-2)) ∧
    qval (.num false 34999 (-2)) = pairVal (25000, -2) + pairVal (9999, -2) := by
  have h := total_expenses_amended
    ⟨[⟨⟨2025, 1, 15⟩, "Food".data, .num false 25000 (-2), "Lunch".data⟩,
      ⟨⟨2025, 1, 20⟩, "Rent".data, .num false 9999 (-2), "y".data⟩,
      ⟨⟨2025, 2, 1⟩, "Food".data, .num false 7 0, "z".data⟩],
     [], none, .absent⟩
    (some "2025-01".data) (by decide) [(25000, -2), (9999, -2)] (by decide) (by decide)
  obtain ⟨h1, h2, _, _⟩ := h
  constructor
  · rw [h1]
    decide
  · have hsum : listSumExact [(25000, -2), (9999, -2)] = (34999, -2) := by decide
    rw [hsum] at h2
    simpa using h2

/-- Counterexample for C1 as stated: (i) with no budget set, `budget_status` fills
the `budget` and `remaining` slots with the decimal NaN value — a numeric
not-a-number sentinel of the `Decimal` type, not an explicit absent/optional value;
(ii) `remaining` is the context (28-significant-digit) decimal difference, which for
a 29-digit budget against a total of `0.5` is rounded and no longer equals
`budget - total` exactly. -/
theorem budget_status_claim_counterexample :
    ((ExpenseTracker.budget_status ⟨[], [], none, .absent⟩ "2025-01".data).1 =
      .ok ⟨"2025-01".data, .nan, .num false 0 0, .nan, "no_budget".data⟩) ∧
    ((ExpenseTracker.budget_status
        ⟨[⟨⟨2025, 1, 15⟩, "Food".data, .num false 5 (-1), "x".data⟩],
         [("2025-01".data, .num false (10 ^ 28 + 1) 0)], none, .absent⟩
        "2025-01".data).1 =
      .ok ⟨"2025-01".data, .num false (10 ^ 28 + 1) 0, .num false 5 (-1),
           .num false (10 ^ 27) 1, "within_budget".data⟩) ∧
    qval (.num false (10 ^ 27) 1) ≠
      qval (.num false (10 ^ 28 + 1) 0) - qval (.num false 5 (-1)) := by
  refine ⟨by decide, by decide, ?_⟩
  unfold qval
  simp only [Bool.false_eq_true, if_false, one_mul, zpow_one, zpow_zero, mul_one, zpow_neg]
  push_cast
  intro heq
  field_simp at heq
  norm_num at heq

/-- C1 (amended): `budget_status` computes `total = total_expenses(month_key)`; when
no budget is set it returns the `no_budget` result with the total populated and the
`budget`/`remaining` slots holding the decimal NaN sentinel (not an absent value);
when a finite budget is set and the difference is representable under the default
context — at most 28 significant digits and exponent within the `[Etiny, Emax]`
window, as in all everyday cases — `remaining` equals `budget - total` exactly and
the status is `within_budget` iff `remaining >= 0` (a total exactly equal to the
budget counts as within) and `exceeded_budget` iff `remaining < 0`.  (Outside the
window the context rounds, flushes a tiny difference toward `0E-1000026`, or raises
the trapped `decimal.Overflow`.) -/
theorem budget_status_amended (t : ExpenseTracker) (mk : Str) (tc : ℕ) (te : ℤ)
    (hT : (t.total_expenses (some mk)).1 = .ok (.num false tc te)) :
    ((t.get_budget mk).1 = none →
      (t.budget_status mk).1 =
        .ok ⟨mk, .nan, .num false tc te, .nan, "no_budget".data⟩) ∧
    (∀ bc : ℕ, ∀ be : ℤ, (t.get_budget mk).1 = some (.num false bc be) →
      subFit (bc, be) (tc, te) = true →
      ∃ rem st,
        (t.budget_status mk).1 =
          .ok ⟨mk, .num false bc be, .num false tc te, rem, st⟩ ∧
        qval rem = qval (.num false bc be) - qval (.num false tc te) ∧
        (st = "within_budget".data ↔ 0 ≤ qval rem) ∧
        (st = "exceeded_budget".data ↔ qval rem < 0)) := by
  have hst : (t.total_expenses (some mk)).2 = t := rfl
  constructor
  · intro hnb
    unfold ExpenseTracker.budget_status
    simp only [hst, hT, hnb]
  · intro bc be hB hfit
    have hsub := decSubE_exact bc tc be te hfit
    set m : ℤ := (bc : ℤ) * 10 ^ (be - min be te).toNat -
        (tc : ℤ) * 10 ^ (te - min be te).toNat with hm
    have hq : qval (.num (decide (m < 0)) m.natAbs (min be te)) =
        (m : ℚ) * (10 : ℚ) ^ (min be te) := qval_sign_abs m (min be te)
    have hqdiff : (m : ℚ) * (10 : ℚ) ^ (min be te) =
        qval (.num false bc be) - qval (.num false tc te) := by
      unfold qval
      simp only [Bool.false_eq_true, if_false, one_mul]
      rw [hm]
      push_cast
      rw [sub_mul, mul_assoc, mul_assoc, q10_pow_toNat (min_le_left be te),
          q10_pow_toNat (min_le_right be te)]
    have hpow : (0 : ℚ) < (10 : ℚ) ^ (min be te) := by
      apply zpow_pos
      norm_num
    have hsign : (0 ≤ (m : ℚ) * (10 : ℚ) ^ (min be te)) ↔ 0 ≤ m := by
      rw [mul_nonneg_iff_of_pos_right hpow]
      constructor
      · intro h2
        exact_mod_cast h2
      · intro h2
        exact_mod_cast h2
    have hsign2 : ((m : ℚ) * (10 : ℚ) ^ (min be te) < 0) ↔ m < 0 := by
      rw [← not_le, ← not_le]
      exact not_congr hsign
    refine ⟨.num (decide (m < 0)) m.natAbs (min be te),
            if decide (0 ≤ m) = true then "within_budget".data else "exceeded_budget".data,
            ?_, ?_, ?_, ?_⟩
    · unfold ExpenseTracker.budget_status
      simp only [hst, hT, hB, hsub, decGeZeroE_sign]
    · rw [hq, hqdiff]
    · rw [hq]
      by_cases hmz : 0 ≤ m
      · rw [if_pos (decide_eq_true hmz)]
        exact ⟨fun _ => hsign.mpr hmz, fun _ => rfl⟩
      · rw [if_neg (by simp [hmz])]
        constructor
        · intro habs
          exact absurd habs (by decide)
        · intro hge
          exact absurd (hsign.mp hge) hmz
    · rw [hq]
      by_cases hmz : 0 ≤ m
      · rw [if_pos (decide_eq_true hmz)]
        constructor
        · intro habs
          exact absurd habs (by decide)
        · intro hlt
          exact absurd (hsign2.mp hlt) (by omega)
      · rw [if_neg (by simp [hmz])]
        exact ⟨fun _ => hsign2.mpr (by omega), fun _ => rfl⟩

/-- Witness for C1: the specification's example — one expense of `250.00` in January
2025 and a budget of `2000.00` for `2025-01`; the status result has remaining equal
to the exact difference and is `within_budget` iff it is non-negative. -/
theorem budget_status_amended_witness :
    ∃ rem st,
      (ExpenseTracker.budget_status
          ⟨[⟨⟨2025, 1, 15⟩, "Food".data, .num false 25000 (-2), "Lunch".data⟩],
           [("2025-01".data, .num false 200000 (-2))], none, .absent⟩
          "2025-01".data).1 =
        .ok ⟨"2025-01".data, .num false 200000 (-2), .num false 25000 (-2), rem, st⟩ ∧
      qval rem = qval (.num false 200000 (-2)) - qval (.num false 25000 (-2)) ∧
      (st = "within_budget".data ↔ 0 ≤ qval rem) ∧
      (st = "exceeded_budget".data ↔ qval rem < 0) :=
  (budget_status_amended
    ⟨[⟨⟨2025, 1, 15⟩, "Food".data, .num false 25000 (-2), "Lunch".data⟩],
     [("2025-01".data, .num false 200000 (-2))], none, .absent⟩
    "2025-01".data 25000 (-2) (by decide)).2 200000 (-2) (by decide) (by decide)

lemma load_rows_map_to_row (es : List Expense) (h : ∀ e ∈ es, ValidExp e = true) :
    load_rows (es.map Expense.to_row) = .ok (es, es.length) := by
  induction es with
  | nil => rfl
  | cons e rest ih =>
    simp only [List.map_cons]
    unfold load_rows
    rw [from_row_to_row (h e (List.mem_cons_self e rest))]
    rw [ih (fun x hx => h x (List.mem_cons_of_mem e hx))]
    rfl

lemma budgets_roundtrip (bs : List (Str × PyDec)) (h : ∀ kv ∈ bs, BudVal kv.2 = true) :
    (bs.map (fun kv => (kv.1, decFormat kv.2))).mapM
      (fun kv => (decimalParse kv.2).map (fun d => (kv.1, d))) = some bs := by
  induction bs with
  | nil => rfl
  | cons kv rest ih =>
    simp only [List.map_cons, List.mapM_cons]
    rw [decimalParse_decFormat_budval (h kv (List.mem_cons_self kv rest))]
    rw [ih (fun x hx => h x (List.mem_cons_of_mem kv hx))]
    rfl

/-- Counterexample for C6 as stated: a valid expense whose date has a three-digit
year does not survive the round trip.  `from_row` accepts the row date `0999-01-15`
(strptime's `%Y` wants exactly four digits) and yields a calendar-valid expense with
year 999; `save` writes the date back through strftime's unpadded `%Y` as
`999-01-15`; on reload strptime rejects the three-digit year, the row fails with
`ValueError` and is silently skipped — the engine held one valid expense, the fresh
load returns zero. -/
theorem save_load_roundtrip_counterexample :
    Expense.from_row [("date".data, "0999-01-15".data), ("category".data, "Food".data),
        ("amount".data, "250.00".data), ("description".data, "Lunch".data)] =
      .ok ⟨⟨999, 1, 15⟩, "Food".data, .num false 25000 (-2), "Lunch".data⟩ ∧
    rowGet ((⟨⟨999, 1, 15⟩, "Food".data, .num false 25000 (-2), "Lunch".data⟩ :
        Expense).to_row) "date".data = some "999-01-15".data ∧
    (freshOn
        (ExpenseTracker.save ⟨[⟨⟨999, 1, 15⟩, "Food".data, .num false 25000 (-2),
          "Lunch".data⟩], [], none, .absent⟩).expFile
        (ExpenseTracker.save ⟨[⟨⟨999, 1, 15⟩, "Food".data, .num false 25000 (-2),
          "Lunch".data⟩], [], none, .absent⟩).budFile).load =
      .ok (⟨[],
            [],
            (ExpenseTracker.save ⟨[⟨⟨999, 1, 15⟩, "Food".data, .num false 25000 (-2),
              "Lunch".data⟩], [], none, .absent⟩).expFile,
            (ExpenseTracker.save ⟨[⟨⟨999, 1, 15⟩, "Food".data, .num false 25000 (-2),
              "Lunch".data⟩], [], none, .absent⟩).budFile⟩,
           0, 0) :=
  ⟨by decide, by decide, by decide⟩

/-- C6 (amended): for every engine whose stored expenses are valid *with a four-digit
year* (calendar-valid date with year at least 1000, nonempty trimmed category and
description, positive finite amount with non-positive exponent — the form the strict
parsing path accepts and `format(_, "f")` reproduces exactly) and whose budget
values reparse to themselves, calling `save` and then `load` on a fresh engine over
the same files yields exactly the same expense sequence (same field values, same
order, count preserved) and exactly the same budget map (same key-to-amount pairs,
count preserved).  A valid expense with year at most 999 is instead silently dropped
on reload (see the counterexample). -/
theorem save_load_roundtrip (t : ExpenseTracker)
    (hE : ∀ e ∈ t.expenses, ValidExp e = true)
    (hB : ∀ kv ∈ t.budgets, BudVal kv.2 = true) :
    (freshOn t.save.expFile t.save.budFile).load =
      .ok (⟨t.expenses, t.budgets, t.save.expFile, t.save.budFile⟩,
           t.expenses.length, t.budgets.length) := by
  unfold ExpenseTracker.load ExpenseTracker.load_expenses ExpenseTracker.load_budgets
    freshOn ExpenseTracker.save
  simp only []
  rw [load_rows_map_to_row t.expenses hE]
  simp only []
  rw [budgets_roundtrip t.budgets hB]
  simp

/-- Witness for C6: one valid expense and one budget survive a save/load round trip
with the same values and counts 1 and 1. -/
theorem save_load_roundtrip_witness :
    (freshOn
        (ExpenseTracker.save ⟨[⟨⟨2025, 1, 15⟩, "Food".data, .num false 25000 (-2),
          "Lunch".data⟩], [("2025-01".data, .num false 200000 (-2))], none, .absent⟩).expFile
        (ExpenseTracker.save ⟨[⟨⟨2025, 1, 15⟩, "Food".data, .num false 25000 (-2),
          "Lunch".data⟩], [("2025-01".data, .num false 200000 (-2))], none, .absent⟩).budFile).load =
      .ok (⟨[⟨⟨2025, 1, 15⟩, "Food".data, .num false 25000 (-2), "Lunch".data⟩],
            [("2025-01".data, .num false 200000 (-2))],
            (ExpenseTracker.save ⟨[⟨⟨2025, 1, 15⟩, "Food".data, .num false 25000 (-2),
              "Lunch".data⟩], [("2025-01".data, .num false 200000 (-2))], none, .absent⟩).expFile,
            (ExpenseTracker.save ⟨[⟨⟨2025, 1, 15⟩, "Food".data, .num false 25000 (-2),
              "Lunch".data⟩], [("2025-01".data, .num false 200000 (-2))], none, .absent⟩).budFile⟩,
           1, 1) :=
  save_load_roundtrip
    ⟨[⟨⟨2025, 1, 15⟩, "Food".data, .num false 25000 (-2), "Lunch".data⟩],
     [("2025-01".data, .num false 200000 (-2))], none, .absent⟩
    (by decide) (by decide)

/-- Counterexample for C2 as stated: a *missing* date and a *malformed* date fail
with one and the same cause (`Invalid date format`) — the inner
`ValueError("Missing date")` is swallowed by the `except (KeyError, Exception)`
clause — so the documented distinct `MissingDate` cause does not exist; and a
whitespace-only category passes the pre-trim truthiness check and yields a
*successful* Expense whose category is blank after trimming, instead of failing
with `MissingCategory`. -/
theorem from_row_claim_counterexample :
    Expense.from_row [("category".data, "Food".data), ("amount".data, "5".data),
        ("description".data, "x".data)] =
      .error (.valueError "Invalid date format".data) ∧
    Expense.from_row [("date".data, "2025-Jan-15".data), ("category".data, "Food".data),
        ("amount".data, "5".data), ("description".data, "x".data)] =
      .error (.valueError "Invalid date format".data) ∧
    Expense.from_row [("date".data, "2025-01-15".data), ("category".data, "   ".data),
        ("amount".data, "5".data), ("description".data, "x".data)] =
      .ok ⟨⟨2025, 1, 15⟩, [], .num false 5 0, "x".data⟩ :=
  ⟨by decide, by decide, by decide⟩

/-- C2 (amended): the full failure-mode behaviour of `Expense.from_row`.  An empty
mapping has its own error; a missing, empty or malformed date all fail with the
single cause `Invalid date format`; category and description are required present
and non-empty *before* trimming (whitespace-only text is accepted and stored
blank); a missing or empty amount fails with `Missing amount`, an unparsable one
with `Invalid amount`, a NaN amount raises an uncaught `decimal.InvalidOperation`,
and a non-positive one with `Amount must be positive`; otherwise construction
succeeds with trimmed category and description and the parsed amount. -/
theorem from_row_amended (r : Row) :
    (r = [] → Expense.from_row r = .error (.valueError "Input row cannot be empty".data)) ∧
    (r ≠ [] → rowFalsy r "date".data = true →
      Expense.from_row r = .error (.valueError "Invalid date format".data)) ∧
    (∀ s, r ≠ [] → rowGet r "date".data = some s → dateParse (strip s) = none →
      Expense.from_row r = .error (.valueError "Invalid date format".data)) ∧
    (∀ s dt, r ≠ [] → rowGet r "date".data = some s → s ≠ [] →
      dateParse (strip s) = some dt →
      ((rowFalsy r "category".data = true →
        Expense.from_row r = .error (.valueError "Missing category".data)) ∧
       (∀ cat, rowGet r "category".data = some cat → cat ≠ [] →
        ((rowFalsy r "description".data = true →
          Expense.from_row r = .error (.valueError "Missing description".data)) ∧
         (∀ desc, rowGet r "description".data = some desc → desc ≠ [] →
          ((rowFalsy r "amount".data = true →
            Expense.from_row r = .error (.valueError "Missing amount".data)) ∧
           (∀ amtS, rowGet r "amount".data = some amtS → amtS ≠ [] →
            ((decimalParse (strip amtS) = none →
              Expense.from_row r = .error (.valueError "Invalid amount".data)) ∧
             (decimalParse (strip amtS) = some .nan →
              Expense.from_row r = .error .invalidOperation) ∧
             (∀ amt, decimalParse (strip amtS) = some amt → decLeZeroE amt = .ok true →
              Expense.from_row r = .error (.valueError "Amount must be positive".data)) ∧
             (∀ amt, decimalParse (strip amtS) = some amt → decLeZeroE amt = .ok false →
              Expense.from_row r = .ok ⟨dt, strip cat, amt, strip desc⟩))))))))) := by
  refine ⟨?_, ?_, ?_, ?_⟩
  · intro h
    unfold Expense.from_row
    rw [if_pos h]
  · intro hne hf
    have hD : (match rowGet r "date".data with
        | none => none
        | some s => if s = [] then none else dateParse (strip s)) = none := by
      unfold rowFalsy at hf
      cases hg : rowGet r "date".data with
      | none => rfl
      | some v =>
        rw [hg] at hf
        simp only [decide_eq_true_eq] at hf
        subst hf
        simp
    unfold Expense.from_row
    rw [if_neg hne, hD]
  · intro s hne hg hparse
    have hD : (match rowGet r "date".data with
        | none => none
        | some s2 => if s2 = [] then none else dateParse (strip s2)) = none := by
      rw [hg]
      show (if s = [] then none else dateParse (strip s)) = none
      by_cases hs : s = []
      · rw [if_pos hs]
      · rw [if_neg hs]
        exact hparse
    unfold Expense.from_row
    rw [if_neg hne, hD]
  · intro s dt hne hg hsne hparse
    have hD : (match rowGet r "date".data with
        | none => none
        | some s2 => if s2 = [] then none else dateParse (strip s2)) = some dt := by
      rw [hg]
      show (if s = [] then none else dateParse (strip s)) = some dt
      rw [if_neg hsne]
      exact hparse
    constructor
    · intro hcf
      unfold rowFalsy at hcf
      unfold Expense.from_row
      rw [if_neg hne]
      cases hgc : rowGet r "category".data with
      | none => simp only [hD, hgc]
      | some v =>
        rw [hgc] at hcf
        simp only [decide_eq_true_eq] at hcf
        subst hcf
        simp only [hD, hgc]
        simp
    · intro cat hgc hcne
      constructor
      · intro hdf
        unfold rowFalsy at hdf
        unfold Expense.from_row
        rw [if_neg hne]
        cases hgd : rowGet r "description".data with
        | none => simp only [hD, hgc, if_neg hcne, hgd]
        | some v =>
          rw [hgd] at hdf
          simp only [decide_eq_true_eq] at hdf
          subst hdf
          simp only [hD, hgc, if_neg hcne, hgd]
          simp
      · intro desc hgd hdne
        constructor
        · intro haf
          unfold rowFalsy at haf
          unfold Expense.from_row
          rw [if_neg hne]
          cases hga : rowGet r "amount".data with
          | none => simp only [hD, hgc, if_neg hcne, hgd, if_neg hdne, hga]
          | some v =>
            rw [hga] at haf
            simp only [decide_eq_true_eq] at haf
            subst haf
            simp only [hD, hgc, if_neg hcne, hgd, if_neg hdne, hga]
            simp
        · intro amtS hga hane
          refine ⟨?_, ?_, ?_, ?_⟩
          · intro hbad
            unfold Expense.from_row
            rw [if_neg hne]
            simp only [hD, hgc, if_neg hcne, hgd, if_neg hdne, hga, if_neg hane, hbad]
          · intro hnan
            unfold Expense.from_row
            rw [if_neg hne]
            simp only [hD, hgc, if_neg hcne, hgd, if_neg hdne, hga, if_neg hane, hnan]
            rfl
          · intro amt hpa hle
            unfold Expense.from_row
            rw [if_neg hne]
            simp only [hD, hgc, if_neg hcne, hgd, if_neg hdne, hga, if_neg hane, hpa, hle]
          · intro amt hpa hle
            unfold Expense.from_row
            rw [if_neg hne]
            simp only [hD, hgc, if_neg hcne, hgd, if_neg hdne, hga, if_neg hane, hpa, hle]

/-- Witness for C2: a fully valid mapping (with an untrimmed category) constructs
successfully with trimmed fields, through the success clause of the amended
theorem. -/
theorem from_row_amended_witness :
    Expense.from_row [("date".data, "2025-01-15".data), ("category".data, " Food ".data),
        ("amount".data, "250.00".data), ("description".data, "Lunch".data)] =
      .ok ⟨⟨2025, 1, 15⟩, "Food".data, .num false 25000 (-2), "Lunch".data⟩ := by
  have h4 := (from_row_amended
      [("date".data, "2025-01-15".data), ("category".data, " Food ".data),
       ("amount".data, "250.00".data), ("description".data, "Lunch".data)]).2.2.2
      "2025-01-15".data ⟨2025, 1, 15⟩ (by decide) (by decide) (by decide) (by decide)
  have hcat := h4.2 " Food ".data (by decide) (by decide)
  have hdesc := hcat.2 "Lunch".data (by decide) (by decide)
  have hamt := hdesc.2 "250.00".data (by decide) (by decide)
  have hok := hamt.2.2.2 (.num false 25000 (-2)) (by decide) (by decide)
  rw [hok]
  decide

set_option maxHeartbeats 1600000 in
lemma isCanonDateStr_shape {s : Str} (h : isCanonDateStr s = true) :
    ∃ y1 y2 y3 y4 m1 m2 d1 d2, s = [y1, y2, y3, y4, '-', m1, m2, '-', d1, d2] := by
  unfold isCanonDateStr at h
  split at h
  · next y1 y2 y3 y4 m1 m2 d1 d2 => exact ⟨y1, y2, y3, y4, m1, m2, d1, d2, rfl⟩
  · exact absurd h (by decide)

/-- Counterexample for C5 as stated: the raw mapping with amount text `00.5` is
valid (it parses to the positive decimal 0.5), but serialization reproduces the
amount as `0.5`, not `00.5` — the round trip does not return the mapping even
after trimming. -/
theorem from_to_row_claim_counterexample :
    Expense.from_row [("date".data, "2025-01-15".data), ("category".data, "Food".data),
        ("amount".data, "00.5".data), ("description".data, "Lunch".data)] =
      .ok ⟨⟨2025, 1, 15⟩, "Food".data, .num false 5 (-1), "Lunch".data⟩ ∧
    Expense.to_row ⟨⟨2025, 1, 15⟩, "Food".data, .num false 5 (-1), "Lunch".data⟩ =
      [("date".data, "2025-01-15".data), ("category".data, "Food".data),
       ("amount".data, "0.5".data), ("description".data, "Lunch".data)] ∧
    ("0.5".data : Str) ≠ "00.5".data :=
  ⟨by decide, by decide, by decide⟩

/-- C5 (amended): for every valid raw field mapping whose trimmed date text is
canonical (`YYYY-MM-DD`, zero-padded, year not starting with 0) and whose trimmed
amount text is canonical fixed-point (digits, optional point, no sign, no exponent,
no spurious leading zero) and denotes a nonzero value, serialization of the
constructed expense reproduces the mapping exactly after trimming: the date,
trimmed category, amount and trimmed description texts all round-trip. -/
theorem from_to_row_amended (r : Row) (dS cat amtS desc : Str)
    (h1 : rowGet r "date".data = some dS) (h2 : rowGet r "category".data = some cat)
    (h3 : rowGet r "amount".data = some amtS) (h4 : rowGet r "description".data = some desc)
    (hcne : cat ≠ []) (hdne : desc ≠ [])
    (hdate : isCanonDateStr (strip dS) = true)
    (hamt : isCanonAmount (strip amtS) = true)
    (hpos : digitsToNat ((strip amtS).filter isDigitChar) ≠ 0) :
    ∃ e, Expense.from_row r = .ok e ∧
      e.to_row = [("date".data, strip dS), ("category".data, strip cat),
                  ("amount".data, strip amtS), ("description".data, strip desc)] := by
  obtain ⟨y1, y2, y3, y4, m1, m2, d1, d2, hshape⟩ := isCanonDateStr_shape hdate
  rw [hshape] at hdate
  obtain ⟨dt, hdp, hdf, hvd, hy⟩ := isCanonDateStr_parse_format hdate
  obtain ⟨C, E, hap, haf, hE, hC⟩ := canonAmount_roundtrip hamt
  have hdsne : dS ≠ [] := by
    intro hnil
    rw [hnil] at hshape
    have hstripnil : strip ([] : Str) = [] := rfl
    rw [hstripnil] at hshape
    exact List.noConfusion hshape
  have hamtne : amtS ≠ [] := by
    intro hnil
    rw [hnil] at hamt
    exact absurd hamt (by decide)
  have hCne : C ≠ 0 := by
    rw [hC]
    exact hpos
  have hle : decLeZeroE (.num false C E) = .ok false := by
    unfold decLeZeroE
    simp [hCne]
  refine ⟨⟨dt, strip cat, .num false C E, strip desc⟩, ?_, ?_⟩
  · have hD : (match rowGet r "date".data with
        | none => none
        | some s2 => if s2 = [] then none else dateParse (strip s2)) = some dt := by
      rw [h1]
      show (if dS = [] then none else dateParse (strip dS)) = some dt
      rw [if_neg hdsne, hshape]
      exact hdp
    have hrne : r ≠ [] := by
      intro hnil
      rw [hnil] at h1
      exact Option.noConfusion h1
    unfold Expense.from_row
    rw [if_neg hrne]
    simp only [hD, h2, if_neg hcne, h4, if_neg hdne, h3, if_neg hamtne, hap, hle]
  · unfold Expense.to_row
    have hdfs : dateFormat dt = strip dS := hdf.trans hshape.symm
    rw [hdfs, haf]

/-- Witness for C5: the canonical mapping `2025-01-15 / Food / 250.00 / Lunch`
round-trips to itself. -/
theorem from_to_row_amended_witness :
    ∃ e, Expense.from_row [("date".data, "2025-01-15".data), ("category".data, "Food".data),
        ("amount".data, "250.00".data), ("description".data, "Lunch".data)] = .ok e ∧
      e.to_row = [("date".data, strip "2025-01-15".data),
                  ("category".data, strip "Food".data),
                  ("amount".data, strip "250.00".data),
                  ("description".data, strip "Lunch".data)] :=
  from_to_row_amended
    [("date".data, "2025-01-15".data), ("category".data, "Food".data),
     ("amount".data, "250.00".data), ("description".data, "Lunch".data)]
    "2025-01-15".data "Food".data "250.00".data "Lunch".data
    (by decide) (by decide) (by decide) (by decide) (by decide) (by decide)
    (by decide) (by decide) (by decide)
